import Mathlib

/-!
Verification of the portfolio valuation and analytics engine
(`lib/finance.ts` of the da-portfolio repository).

The engine is shallowly embedded: JavaScript numbers are modelled as exact
rationals `ℚ` (real-valued results of `Math.sqrt` / `Math.pow` are modelled
in `ℝ`); the dynamic `{ [ticker]: number }` objects are modelled as
association lists whose entry order mirrors `Object.keys` iteration order;
ISO `YYYY-MM-DD` date strings are modelled by their calendar components
(`year`, 0-based `month0` as returned by `Date.getMonth`, 1-based `day`).
Missing object keys are modelled by `Option`.
-/

/-- Calendar date: the components of an ISO `YYYY-MM-DD` string.
`month0` is the 0-based month index, exactly what JavaScript
`Date.getMonth()` returns for the parsed string. -/
structure DateYMD where
  year : ℕ
  month0 : ℕ
  day : ℕ
deriving DecidableEq, Repr

abbrev Ticker := String

/-- One element of the `DailyData[]` input: a date plus the dynamic
`ticker ↦ price` fields of the record, as an association list
(first entry wins, mirroring object key lookup; a ticker absent from the
list models an absent object key, i.e. `undefined`). -/
structure DailyData where
  date : DateYMD
  prices : List (Ticker × ℚ)
deriving DecidableEq, Repr

/-- Association-list lookup, modelling `dayData[ticker]`:
`none` models `undefined`. -/
def lookupPrice : List (Ticker × ℚ) → Ticker → Option ℚ
  | [], _ => none
  | p :: rest, t => if p.1 = t then some p.2 else lookupPrice rest t

/-- `dayData[ticker] as number` (may be `undefined`, modelled as `none`). -/
def priceOf (dayData : DailyData) (ticker : Ticker) : Option ℚ :=
  lookupPrice dayData.prices ticker

/-- The `weights` object: ticker ↦ target percentage, as an association
list whose order is the `Object.keys(weights)` iteration order. -/
abbrev WeightMap := List (Ticker × ℚ)

/-- One point of the output series: `{ date, value }`. -/
structure ValuePoint where
  date : DateYMD
  value : ℚ
deriving DecidableEq, Repr

/-- `type RebalanceFrequency = 'none' | 'quarterly' | 'annually'` -/
inductive RebalanceFrequency where
  | none
  | quarterly
  | annually
deriving DecidableEq, Repr

/-- `shouldRebalance(currentDate, lastRebalanceDate, frequency)` from
`lib/finance.ts`.  `getMonth()` is `month0`, `getFullYear()` is `year`. -/
def shouldRebalance (currentDate lastRebalanceDate : DateYMD)
    (frequency : RebalanceFrequency) : Bool :=
  match frequency with
  | .none => false
  | .quarterly =>
    let currentQuarter := currentDate.month0 / 3
    let lastQuarter := lastRebalanceDate.month0 / 3
    let currentYear := currentDate.year
    let lastYear := lastRebalanceDate.year
    decide (lastYear < currentYear) ||
      (decide (currentYear = lastYear) && decide (lastQuarter < currentQuarter))
  | .annually =>
    decide (lastRebalanceDate.year < currentDate.year)

/-- The inner helper `calculateUnits(dayData, portfolioValue)` of
`calculatePortfolioHistory`: for each ticker of `weights` (in key order),
`(portfolioValue * weight/100) / price` if the price is a positive number
(`price && price > 0`), else `0` units. -/
def calculateUnits (weights : WeightMap) (dayData : DailyData)
    (portfolioValue : ℚ) : List (Ticker × ℚ) :=
  weights.map (fun tw =>
    let weight := tw.2 / 100
    match priceOf dayData tw.1 with
    | some price =>
      if 0 < price then (tw.1, portfolioValue * weight / price) else (tw.1, 0)
    | none => (tw.1, 0))

/-- The inner helper `calculateValue(dayData, currentUnits)`: sum of
`units * price` over the unit entries, skipping tickers whose price is not
a number (`typeof price === 'number'` fails only for an absent key). -/
def calculateValue (dayData : DailyData) (currentUnits : List (Ticker × ℚ)) : ℚ :=
  currentUnits.foldl (fun totalValue tu =>
    match priceOf dayData tu.1 with
    | some price => totalValue + tu.2 * price
    | none => totalValue) 0

/-- The main loop of `calculatePortfolioHistory` for indices `i ≥ 1`,
threading the mutable `units` and `lastRebalanceDate` state. -/
def historyLoop (weights : WeightMap) (freq : RebalanceFrequency) :
    List DailyData → List (Ticker × ℚ) → DateYMD → List ValuePoint
  | [], _, _ => []
  | day :: rest, units, lastRebalanceDate =>
    if shouldRebalance day.date lastRebalanceDate freq then
      let currentValue := calculateValue day units
      let units2 := calculateUnits weights day currentValue
      ⟨day.date, calculateValue day units2⟩ :: historyLoop weights freq rest units2 day.date
    else
      ⟨day.date, calculateValue day units⟩ :: historyLoop weights freq rest units lastRebalanceDate

/-- `calculatePortfolioHistory(historicalData, weights, initialInvestment,
rebalanceFrequency)` from `lib/finance.ts`.  Day 0 computes the initial
units from `initialInvestment` and is never a rebalance day (`i > 0`
guard); the remaining days run `historyLoop`. -/
def calculatePortfolioHistory (historicalData : List DailyData)
    (weights : WeightMap) (initialInvestment : ℚ)
    (rebalanceFrequency : RebalanceFrequency) : List ValuePoint :=
  match historicalData with
  | [] => []
  | day0 :: rest =>
    let units := calculateUnits weights day0 initialInvestment
    ⟨day0.date, calculateValue day0 units⟩ ::
      historyLoop weights rebalanceFrequency rest units day0.date

/-- `reduce((a, b) => a + f(b), 0)` / `for`-loop accumulation pattern used
throughout the metrics code: left fold of `+ f _` starting at `0`. -/
def sumBy {α : Type} (f : α → ℚ) (l : List α) : ℚ :=
  l.foldl (fun acc a => acc + f a) 0

/-- `export const ANNUAL_RISK_FREE_RATE = 0.03` from `lib/finance.ts`
(the primary computation module; a separate 2% constant appears only in
the excluded chart component). -/
def ANNUAL_RISK_FREE_RATE : ℚ := 3 / 100

/-- One `MonthlyPerformance` entry.  `month` models the `YYYY-MM` prefix
string by the pair `(year, month0)`; the source field `return` is renamed
`ret` because `return` is a reserved word in Lean. -/
structure MonthlyPerformance where
  month : ℕ × ℕ
  ret : ℚ
  startValue : ℚ
  endValue : ℚ
deriving DecidableEq, Repr

/-- `MonthlyStats` from `lib/types.ts`. -/
structure MonthlyStats where
  averageReturn : ℚ
  upMonths : ℕ
  downMonths : ℕ
  bestMonth : MonthlyPerformance
  worstMonth : MonthlyPerformance
  monthlyData : List MonthlyPerformance
deriving DecidableEq, Repr

/-- The `YYYY-MM` prefix (`day.date.substring(0, 7)`) of a date, as the
pair `(year, month0)`. -/
def monthKeyOf (d : DateYMD) : ℕ × ℕ := (d.year, d.month0)

/-- The grouping loop of `calculateMonthlyPerformance`, entered after the
first point has set `currentMonth`, `monthStart := v0`, `monthEnd := v0`:
each month change pushes the finished month; the trailing push after the
loop is the `[]` case. -/
def monthlyLoop (currentMonth : ℕ × ℕ) (monthStart monthEnd : ValuePoint) :
    List ValuePoint → List MonthlyPerformance
  | [] =>
    [⟨currentMonth, monthEnd.value / monthStart.value - 1, monthStart.value, monthEnd.value⟩]
  | day :: rest =>
    if monthKeyOf day.date = currentMonth then
      monthlyLoop currentMonth monthStart day rest
    else
      ⟨currentMonth, monthEnd.value / monthStart.value - 1, monthStart.value, monthEnd.value⟩ ::
        monthlyLoop (monthKeyOf day.date) day day rest

/-- `calculateMonthlyPerformance(portfolioValues)` from `lib/finance.ts`:
`null` (here `none`) for fewer than 2 points, otherwise group by calendar
month and aggregate.  `bestMonth`/`worstMonth` are `Array.reduce` without
an initial value: the first entry seeds the fold. -/
def calculateMonthlyPerformance (portfolioValues : List ValuePoint) :
    Option MonthlyStats :=
  if portfolioValues.length < 2 then none
  else
    match portfolioValues with
    | [] => none
    | v0 :: rest =>
      match monthlyLoop (monthKeyOf v0.date) v0 v0 rest with
      | [] => none
      | m0 :: ms =>
        let monthlyData := m0 :: ms
        some {
          averageReturn := sumBy (fun m => m.ret) monthlyData / (monthlyData.length : ℚ)
          upMonths := (monthlyData.filter (fun m => decide (0 < m.ret))).length
          downMonths := (monthlyData.filter (fun m => decide (m.ret ≤ 0))).length
          bestMonth := ms.foldl (fun best m => if best.ret < m.ret then m else best) m0
          worstMonth := ms.foldl (fun worst m => if m.ret < worst.ret then m else worst) m0
          monthlyData := monthlyData }

/-- The `Metrics` interface of `lib/finance.ts`.  Fields produced by pure
field arithmetic stay in `ℚ`; `cagr`, `volatility` and `sharpeRatio` go
through `Math.pow`/`Math.sqrt` and live in `ℝ`. -/
structure Metrics where
  initialInvestment : ℚ
  finalBalance : ℚ
  totalReturn : ℚ
  cagr : ℝ
  volatility : ℝ
  sharpeRatio : ℝ
  bestDay : ℚ
  worstDay : ℚ
  maxDrawdown : ℚ
  monthlyStats : Option MonthlyStats
  sp500Correlation : Option ℝ

/-- Days from the civil epoch 1970-01-01 in the proleptic Gregorian
calendar (`m` is 1-based; valid for years ≥ 1): the day count underlying
`new Date("YYYY-MM-DD").getTime()`. -/
def daysFromCivil (y m d : ℕ) : ℤ :=
  let ya := if m ≤ 2 then y - 1 else y
  let era := ya / 400
  let yoe := ya % 400
  let mp := if 2 < m then m - 3 else m + 9
  let doy := (153 * mp + 2) / 5 + d - 1
  let doe := yoe * 365 + yoe / 4 - yoe / 100 + doy
  (era * 146097 + doe : ℤ) - 719468

/-- `new Date(dateStr).getTime()`: milliseconds since the epoch. -/
def getTime (d : DateYMD) : ℤ :=
  daysFromCivil d.year (d.month0 + 1) d.day * 86400000

/-- The daily-returns loop: `r[i] = value[i] / value[i-1] - 1`. -/
def dailyReturns : List ValuePoint → List ℚ
  | a :: b :: rest => (b.value / a.value - 1) :: dailyReturns (b :: rest)
  | _ => []

/-- The max-drawdown loop of `calculateMetrics`, threading the mutable
`peak` and `maxDrawdown` variables over the points after the first. -/
def drawdownLoop : List ValuePoint → ℚ → ℚ → ℚ
  | [], _, maxDrawdown => maxDrawdown
  | v :: rest, peak, maxDrawdown =>
    if peak < v.value then drawdownLoop rest v.value maxDrawdown
    else drawdownLoop rest peak (max maxDrawdown ((peak - v.value) / peak))

/-- `calculateMetrics(portfolioValues, initialInvestment)` from
`lib/finance.ts`, modelling the call without the optional `sp500Data`
argument: the benchmark-correlation block is then skipped entirely and
`sp500Correlation` stays `undefined` (`none`).  The first two match arms
are the `portfolioValues.length < 2` degenerate branch. -/
noncomputable def calculateMetrics (portfolioValues : List ValuePoint)
    (initialInvestment : ℚ) : Metrics :=
  match portfolioValues with
  | [] =>
    { initialInvestment := initialInvestment, finalBalance := initialInvestment
      totalReturn := 0, cagr := 0, volatility := 0, sharpeRatio := 0
      bestDay := 0, worstDay := 0, maxDrawdown := 0
      monthlyStats := none, sp500Correlation := none }
  | [_] =>
    { initialInvestment := initialInvestment, finalBalance := initialInvestment
      totalReturn := 0, cagr := 0, volatility := 0, sharpeRatio := 0
      bestDay := 0, worstDay := 0, maxDrawdown := 0
      monthlyStats := none, sp500Correlation := none }
  | p0 :: p1 :: rest =>
    let lastPoint := (p1 :: rest).getLast (List.cons_ne_nil p1 rest)
    let finalBalance := lastPoint.value
    let totalReturn := (finalBalance - initialInvestment) / initialInvestment
    let years : ℚ := ((getTime lastPoint.date - getTime p0.date : ℤ) : ℚ) / (1000 * 3600 * 24 * 365)
    let cagr : ℝ :=
      if 0 < years then Real.rpow ((finalBalance / initialInvestment : ℚ) : ℝ) (1 / (years : ℝ)) - 1
      else 0
    let drs := dailyReturns (p0 :: p1 :: rest)
    let meanReturn := sumBy id drs / (drs.length : ℚ)
    let variance := sumBy (fun b => (b - meanReturn) ^ 2) drs / (drs.length : ℚ)
    let stdDev : ℝ := Real.sqrt (variance : ℝ)
    let volatility : ℝ := stdDev * Real.sqrt 365
    let sharpeRatio : ℝ :=
      if volatility ≠ 0 then (cagr - (ANNUAL_RISK_FREE_RATE : ℝ)) / volatility else 0
    let bestDay : ℚ := match drs with | [] => 0 | r :: rs => rs.foldl max r
    let worstDay : ℚ := match drs with | [] => 0 | r :: rs => rs.foldl min r
    let maxDrawdown := drawdownLoop (p1 :: rest) p0.value 0
    { initialInvestment := initialInvestment, finalBalance := finalBalance
      totalReturn := totalReturn, cagr := cagr, volatility := volatility
      sharpeRatio := sharpeRatio, bestDay := bestDay, worstDay := worstDay
      maxDrawdown := maxDrawdown
      monthlyStats := calculateMonthlyPerformance (p0 :: p1 :: rest)
      sp500Correlation := none }

/-- `meanX` of `calculateCorrelation`: mean of the portfolio returns,
divided by `n = portfolioReturns.length`. -/
def corrMeanX (portfolioReturns : List ℚ) : ℚ :=
  sumBy id portfolioReturns / (portfolioReturns.length : ℚ)

/-- `meanY` of `calculateCorrelation`: note the source divides by
`n = portfolioReturns.length` (equal to `benchmarkReturns.length` under
the guard). -/
def corrMeanY (portfolioReturns benchmarkReturns : List ℚ) : ℚ :=
  sumBy id benchmarkReturns / (portfolioReturns.length : ℚ)

/-- The `numerator` accumulator of `calculateCorrelation`:
`Σ (x_i − meanX) * (y_i − meanY)` over the paired samples. -/
def corrNumerator (portfolioReturns benchmarkReturns : List ℚ) : ℚ :=
  sumBy
    (fun p => (p.1 - corrMeanX portfolioReturns) *
      (p.2 - corrMeanY portfolioReturns benchmarkReturns))
    (portfolioReturns.zip benchmarkReturns)

/-- The `sumXSquared` accumulator: `Σ xDiff * xDiff`. -/
def corrSumXSquared (portfolioReturns benchmarkReturns : List ℚ) : ℚ :=
  sumBy
    (fun p => (p.1 - corrMeanX portfolioReturns) * (p.1 - corrMeanX portfolioReturns))
    (portfolioReturns.zip benchmarkReturns)

/-- The `sumYSquared` accumulator: `Σ yDiff * yDiff`. -/
def corrSumYSquared (portfolioReturns benchmarkReturns : List ℚ) : ℚ :=
  sumBy
    (fun p => (p.2 - corrMeanY portfolioReturns benchmarkReturns) *
      (p.2 - corrMeanY portfolioReturns benchmarkReturns))
    (portfolioReturns.zip benchmarkReturns)

/-- `calculateCorrelation(portfolioReturns, benchmarkReturns)` from
`lib/finance.ts`: Pearson correlation, `0` on length mismatch, fewer than
2 samples, or zero denominator (`Math.sqrt` of the product of the two
sums of squares). -/
noncomputable def calculateCorrelation (portfolioReturns benchmarkReturns : List ℚ) : ℝ :=
  if portfolioReturns.length ≠ benchmarkReturns.length ∨ portfolioReturns.length < 2 then 0
  else
    let denominator : ℝ :=
      Real.sqrt ((corrSumXSquared portfolioReturns benchmarkReturns *
        corrSumYSquared portfolioReturns benchmarkReturns : ℚ) : ℝ)
    if denominator = 0 then 0
    else ((corrNumerator portfolioReturns benchmarkReturns : ℚ) : ℝ) / denominator

/-- A ticker has a usable positive price on a day: the source's
`price && price > 0` test. -/
def hasPositivePrice (dayData : DailyData) (ticker : Ticker) : Bool :=
  match priceOf dayData ticker with
  | some price => decide (0 < price)
  | none => false

/-- Whether, among the first `n` days of `days` (entered with
`lastRebalanceDate` as the loop's current last-rebalance state), some day
triggers a rebalance while `ticker` has a positive price — the event at
which `calculatePortfolioHistory` recomputes the ticker's units at a
positive price.  `shouldRebalance` depends only on dates, so this flag is
the same for any two runs over the same days. -/
def rebalanceAtPositiveWithin (ticker : Ticker) (freq : RebalanceFrequency) :
    ℕ → List DailyData → DateYMD → Bool
  | 0, _, _ => false
  | _ + 1, [], _ => false
  | n + 1, day :: rest, lastRebalanceDate =>
    if shouldRebalance day.date lastRebalanceDate freq then
      hasPositivePrice day ticker || rebalanceAtPositiveWithin ticker freq n rest day.date
    else
      rebalanceAtPositiveWithin ticker freq n rest lastRebalanceDate

/-- The running-peak max-drawdown algorithm as the specification words it:
`peak` starts at `values[0].value`; each later value above the peak
replaces it, otherwise `(peak − value) / peak` is folded into a running
maximum. -/
def runningPeakDrawdown (values : List ValuePoint) : ℚ :=
  match values with
  | [] => 0
  | v :: rest =>
    (rest.foldl
      (fun st p =>
        if st.1 < p.value then (p.value, st.2)
        else (st.1, max st.2 ((st.1 - p.value) / st.1)))
      ((v.value, 0) : ℚ × ℚ)).2

/-- Splits off the maximal prefix of points whose month key equals `k`,
returning `(prefix, remainder)`. -/
def runChunk (k : ℕ × ℕ) : List ValuePoint → List ValuePoint × List ValuePoint
  | [] => ([], [])
  | v :: rest =>
    if monthKeyOf v.date = k then
      let cr := runChunk k rest
      (v :: cr.1, cr.2)
    else ([], v :: rest)

/-- The decomposition of a value series into its maximal runs of
consecutive points sharing a calendar month (`YYYY-MM` key): the
specification-level grouping that `calculateMonthlyPerformance`'s loop
implements. -/
def monthRuns : List ValuePoint → List (List ValuePoint)
  | [] => []
  | v :: rest =>
    match monthRuns rest with
    | [] => [[v]]
    | [] :: rs => [v] :: rs
    | (w :: ws) :: rs =>
      if monthKeyOf v.date = monthKeyOf w.date then (v :: w :: ws) :: rs
      else [v] :: (w :: ws) :: rs

/-- The `MonthlyPerformance` entry a run of same-month points should
yield, per the specification: start/end are the first/last point's value
within the month, the return is `endValue/startValue − 1`.  (The `[]`
case is junk; runs are never empty.) -/
def mpOfRun : List ValuePoint → MonthlyPerformance
  | [] => ⟨(0, 0), 0, 0, 0⟩
  | v :: rest =>
    ⟨monthKeyOf v.date, (rest.getLast?.getD v).value / v.value - 1, v.value,
      (rest.getLast?.getD v).value⟩

/-- Lexicographic (year, month) order on month keys, non-strict. -/
def keyLE (a b : ℕ × ℕ) : Prop := a.1 < b.1 ∨ (a.1 = b.1 ∧ a.2 ≤ b.2)

/-- Lexicographic (year, month) order on month keys, strict. -/
def keyLT (a b : ℕ × ℕ) : Prop := a.1 < b.1 ∨ (a.1 = b.1 ∧ a.2 < b.2)

instance (a b : ℕ × ℕ) : Decidable (keyLE a b) := by unfold keyLE; infer_instance

instance (a b : ℕ × ℕ) : Decidable (keyLT a b) := by unfold keyLT; infer_instance

/-- The Pearson correlation exactly as the specification words it:
`Σ(x_i−x̄)(y_i−ȳ) / √(Σ(x_i−x̄)² · Σ(y_i−ȳ)²)` over the paired samples,
`0` if either sum of squares is `0` (each mean taken over its own
sample). -/
noncomputable def pearsonSpec (xs ys : List ℚ) : ℝ :=
  let xbar := sumBy id xs / (xs.length : ℚ)
  let ybar := sumBy id ys / (ys.length : ℚ)
  let num := sumBy (fun p => (p.1 - xbar) * (p.2 - ybar)) (xs.zip ys)
  let sx := sumBy (fun p => (p.1 - xbar) ^ 2) (xs.zip ys)
  let sy := sumBy (fun p => (p.2 - ybar) ^ 2) (xs.zip ys)
  if sx = 0 ∨ sy = 0 then 0 else (num : ℝ) / Real.sqrt ((sx * sy : ℚ) : ℝ)

lemma historyLoop_map_date (w : WeightMap) (f : RebalanceFrequency) :
    ∀ (days : List DailyData) (units : List (Ticker × ℚ)) (d : DateYMD),
      (historyLoop w f days units d).map ValuePoint.date = days.map DailyData.date
  | [], _, _ => rfl
  | day :: rest, units, d => by
    by_cases h : shouldRebalance day.date d f
    · simp only [historyLoop, h, if_true, List.map_cons]
      exact congrArg _ (historyLoop_map_date w f rest _ _)
    · simp only [historyLoop, h, if_false, Bool.false_eq_true, List.map_cons]
      exact congrArg _ (historyLoop_map_date w f rest _ _)

/-- C1: `calculatePortfolioHistory` returns exactly one `ValuePoint` per
input `PriceRecord`, in the same order with the same dates, and returns
`[]` (rather than throwing) on empty input. -/
theorem calculatePortfolioHistory_shape (historicalData : List DailyData)
    (weights : WeightMap) (initialInvestment : ℚ) (freq : RebalanceFrequency) :
    (calculatePortfolioHistory historicalData weights initialInvestment freq).map
        ValuePoint.date = historicalData.map DailyData.date ∧
    (calculatePortfolioHistory historicalData weights initialInvestment freq).length
      = historicalData.length ∧
    (historicalData = [] →
      calculatePortfolioHistory historicalData weights initialInvestment freq = []) := by
  have hdates : (calculatePortfolioHistory historicalData weights initialInvestment freq).map
      ValuePoint.date = historicalData.map DailyData.date := by
    cases historicalData with
    | nil => rfl
    | cons day0 rest =>
      simp only [calculatePortfolioHistory, List.map_cons]
      exact congrArg _ (historyLoop_map_date _ _ _ _ _)
  refine ⟨hdates, ?_, ?_⟩
  · have hlen := congrArg List.length hdates
    simpa using hlen
  · intro h; subst h; rfl

/-- C5 helper-free statement of the rebalance-decision contract. -/
theorem shouldRebalance_spec (currentDate lastRebalanceDate : DateYMD) :
    (shouldRebalance currentDate lastRebalanceDate .none = false) ∧
    (shouldRebalance currentDate lastRebalanceDate .quarterly = true ↔
      keyLT (lastRebalanceDate.year, lastRebalanceDate.month0 / 3)
        (currentDate.year, currentDate.month0 / 3)) ∧
    (shouldRebalance currentDate lastRebalanceDate .annually = true ↔
      lastRebalanceDate.year < currentDate.year) := by
  refine ⟨rfl, ?_, ?_⟩
  · simp only [shouldRebalance, keyLT, Bool.or_eq_true, Bool.and_eq_true,
      decide_eq_true_eq]
    tauto
  · simp only [shouldRebalance, decide_eq_true_eq]

/-- C6: on a series with fewer than 2 points, `calculateMetrics` returns
the degenerate record: `finalBalance = initialInvestment`, every derived
statistic `0`, no monthly stats, no benchmark correlation — and does not
throw. -/
theorem calculateMetrics_degenerate (portfolioValues : List ValuePoint)
    (initialInvestment : ℚ) (h : portfolioValues.length < 2) :
    calculateMetrics portfolioValues initialInvestment =
      { initialInvestment := initialInvestment, finalBalance := initialInvestment
        totalReturn := 0, cagr := 0, volatility := 0, sharpeRatio := 0
        bestDay := 0, worstDay := 0, maxDrawdown := 0
        monthlyStats := none, sp500Correlation := none } := by
  match portfolioValues with
  | [] => rfl
  | [_] => rfl
  | _ :: _ :: _ =>
    simp only [List.length_cons] at h
    omega

/-- C6 witness: concrete 0-point and 1-point series. -/
theorem calculateMetrics_degenerate_witness :
    calculateMetrics [] 7 =
      { initialInvestment := 7, finalBalance := 7
        totalReturn := 0, cagr := 0, volatility := 0, sharpeRatio := 0
        bestDay := 0, worstDay := 0, maxDrawdown := 0
        monthlyStats := none, sp500Correlation := none } ∧
    calculateMetrics [⟨⟨2020, 0, 1⟩, 123⟩] 7 =
      { initialInvestment := 7, finalBalance := 7
        totalReturn := 0, cagr := 0, volatility := 0, sharpeRatio := 0
        bestDay := 0, worstDay := 0, maxDrawdown := 0
        monthlyStats := none, sp500Correlation := none } :=
  ⟨calculateMetrics_degenerate [] 7 (by decide),
    calculateMetrics_degenerate [⟨⟨2020, 0, 1⟩, 123⟩] 7 (by decide)⟩

lemma calculateMetrics_maxDrawdown_eq (p0 p1 : ValuePoint) (rest : List ValuePoint)
    (initialInvestment : ℚ) :
    (calculateMetrics (p0 :: p1 :: rest) initialInvestment).maxDrawdown
      = drawdownLoop (p1 :: rest) p0.value 0 := rfl

lemma drawdownLoop_eq_foldl : ∀ (l : List ValuePoint) (peak m : ℚ),
    drawdownLoop l peak m =
      (l.foldl
        (fun st p =>
          if st.1 < p.value then (p.value, st.2)
          else (st.1, max st.2 ((st.1 - p.value) / st.1)))
        ((peak, m) : ℚ × ℚ)).2
  | [], _, _ => rfl
  | v :: rest, peak, m => by
    by_cases h : peak < v.value
    · simp only [drawdownLoop, h, if_true, List.foldl_cons]
      exact drawdownLoop_eq_foldl rest v.value m
    · simp only [drawdownLoop, h, if_false, List.foldl_cons]
      exact drawdownLoop_eq_foldl rest peak (max m ((peak - v.value) / peak))

lemma drawdownLoop_le_self : ∀ (l : List ValuePoint) (peak m : ℚ),
    m ≤ drawdownLoop l peak m
  | [], _, _ => le_refl _
  | v :: rest, peak, m => by
    by_cases h : peak < v.value
    · simpa only [drawdownLoop, h, if_true] using drawdownLoop_le_self rest v.value m
    · simp only [drawdownLoop, h, if_false]
      exact le_trans (le_max_left _ _)
        (drawdownLoop_le_self rest peak (max m ((peak - v.value) / peak)))

lemma drawdownLoop_monotone_zero : ∀ (l : List ValuePoint) (v : ValuePoint),
    List.Chain' (fun p q : ValuePoint => p.value ≤ q.value) (v :: l) →
    drawdownLoop l v.value 0 = 0
  | [], _, _ => rfl
  | w :: rest, v, hch => by
    have hvw : v.value ≤ w.value := (List.chain'_cons.mp hch).1
    have hch2 : List.Chain' (fun p q : ValuePoint => p.value ≤ q.value) (w :: rest) :=
      (List.chain'_cons.mp hch).2
    by_cases h : v.value < w.value
    · simp only [drawdownLoop, h, if_true]
      exact drawdownLoop_monotone_zero rest w hch2
    · have heq : v.value = w.value := le_antisymm hvw (not_lt.mp h)
      simp only [drawdownLoop, h, if_false]
      rw [heq, sub_self, zero_div, max_self]
      exact drawdownLoop_monotone_zero rest w hch2
  termination_by l => l.length

/-- C7: for a series with at least 2 points, the `maxDrawdown` field of
`calculateMetrics` equals the specification's running-peak algorithm and
is non-negative; on a monotonically non-decreasing series it is `0`, and
on the two-point series with values `[100, 50]` it is `1/2`. -/
theorem calculateMetrics_maxDrawdown_spec :
    (∀ (values : List ValuePoint) (initialInvestment : ℚ), 2 ≤ values.length →
      (calculateMetrics values initialInvestment).maxDrawdown = runningPeakDrawdown values ∧
      0 ≤ (calculateMetrics values initialInvestment).maxDrawdown ∧
      (values.Chain' (fun p q => p.value ≤ q.value) →
        (calculateMetrics values initialInvestment).maxDrawdown = 0)) ∧
    (∀ (d1 d2 : DateYMD) (initialInvestment : ℚ),
      (calculateMetrics [⟨d1, 100⟩, ⟨d2, 50⟩] initialInvestment).maxDrawdown = 1 / 2) := by
  constructor
  · intro values initialInvestment h2
    match values, h2 with
    | p0 :: p1 :: rest, _ =>
      refine ⟨?_, ?_, ?_⟩
      · rw [calculateMetrics_maxDrawdown_eq, runningPeakDrawdown, drawdownLoop_eq_foldl]
      · rw [calculateMetrics_maxDrawdown_eq]
        exact drawdownLoop_le_self _ _ _
      · intro hch
        rw [calculateMetrics_maxDrawdown_eq]
        exact drawdownLoop_monotone_zero _ _ hch
  · intro d1 d2 initialInvestment
    rw [calculateMetrics_maxDrawdown_eq]
    norm_num [drawdownLoop]

/-- C7 witness: concrete monotone and falling two-point series. -/
theorem calculateMetrics_maxDrawdown_spec_witness :
    (calculateMetrics [⟨⟨2020, 0, 1⟩, 100⟩, ⟨⟨2020, 0, 2⟩, 110⟩] 100).maxDrawdown = 0 ∧
    (calculateMetrics [⟨⟨2020, 0, 1⟩, 100⟩, ⟨⟨2020, 0, 2⟩, 50⟩] 100).maxDrawdown = 1 / 2 ∧
    (calculateMetrics [⟨⟨2020, 0, 1⟩, 100⟩, ⟨⟨2020, 0, 2⟩, 110⟩] 100).maxDrawdown =
      runningPeakDrawdown [⟨⟨2020, 0, 1⟩, 100⟩, ⟨⟨2020, 0, 2⟩, 110⟩] :=
  ⟨(calculateMetrics_maxDrawdown_spec.1 _ 100 (by decide)).2.2
      (List.chain'_cons.mpr ⟨by norm_num, List.chain'_singleton _⟩),
    calculateMetrics_maxDrawdown_spec.2 ⟨2020, 0, 1⟩ ⟨2020, 0, 2⟩ 100,
    (calculateMetrics_maxDrawdown_spec.1 _ 100 (by decide)).1⟩

lemma foldl_add_shift {α : Type} (g : α → ℚ) :
    ∀ (l : List α) (c : ℚ), l.foldl (fun acc x => acc + g x) c = c + l.foldl (fun acc x => acc + g x) 0
  | [], c => by simp
  | a :: l, c => by
    simp only [List.foldl_cons]
    rw [foldl_add_shift g l (c + g a), foldl_add_shift g l (0 + g a)]
    ring

lemma sumBy_cons {α : Type} (f : α → ℚ) (a : α) (l : List α) :
    sumBy f (a :: l) = f a + sumBy f l := by
  unfold sumBy
  simp only [List.foldl_cons]
  rw [foldl_add_shift f l (0 + f a)]
  ring

lemma sumBy_nil {α : Type} (f : α → ℚ) : sumBy f [] = 0 := rfl

lemma sumBy_map {α β : Type} (f : β → ℚ) (g : α → β) (l : List α) :
    sumBy f (l.map g) = sumBy (fun x => f (g x)) l := by
  unfold sumBy
  rw [List.foldl_map]

lemma sumBy_congr {α : Type} {f g : α → ℚ} : ∀ {l : List α},
    (∀ x ∈ l, f x = g x) → sumBy f l = sumBy g l
  | [], _ => rfl
  | a :: l, h => by
    rw [sumBy_cons, sumBy_cons, h a (List.mem_cons_self a l),
      sumBy_congr (fun x hx => h x (List.mem_cons_of_mem a hx))]

lemma sumBy_smul {α : Type} (f : α → ℚ) (c : ℚ) : ∀ (l : List α),
    sumBy (fun x => c * f x) l = c * sumBy f l
  | [] => by simp [sumBy]
  | a :: l => by
    rw [sumBy_cons, sumBy_cons, sumBy_smul f c l]
    ring

lemma sumBy_nonneg {α : Type} {f : α → ℚ} : ∀ {l : List α},
    (∀ x ∈ l, 0 ≤ f x) → 0 ≤ sumBy f l
  | [], _ => le_refl _
  | a :: l, h => by
    rw [sumBy_cons]
    have h1 := h a (List.mem_cons_self a l)
    have h2 := sumBy_nonneg (fun x hx => h x (List.mem_cons_of_mem a hx))
    linarith

/-- `calculateValue` is the sum, over the unit entries, of
`units * price` with price `0` for an absent ticker. -/
lemma calculateValue_eq_sumBy (dayData : DailyData) (currentUnits : List (Ticker × ℚ)) :
    calculateValue dayData currentUnits =
      sumBy (fun tu => match priceOf dayData tu.1 with
        | some price => tu.2 * price
        | none => 0) currentUnits := by
  unfold calculateValue sumBy
  congr 1
  funext acc tu
  cases hp : priceOf dayData tu.1 <;> simp [hp]

lemma hasPositivePrice_iff (dayData : DailyData) (t : Ticker) :
    hasPositivePrice dayData t = true ↔ ∃ p, priceOf dayData t = some p ∧ 0 < p := by
  unfold hasPositivePrice
  cases h : priceOf dayData t <;> simp

lemma hasPositivePrice_false_iff (dayData : DailyData) (t : Ticker) :
    hasPositivePrice dayData t = false ↔ ∀ p, priceOf dayData t = some p → p ≤ 0 := by
  unfold hasPositivePrice
  cases h : priceOf dayData t <;> simp

/-- Day-0 allocation then valuation: with every weighted ticker priced
positively, the value is `initialInvestment × (Σ weights) / 100`. -/
lemma calculateValue_calculateUnits (dayData : DailyData) (v : ℚ) :
    ∀ (weights : WeightMap), (∀ tw ∈ weights, hasPositivePrice dayData tw.1 = true) →
      calculateValue dayData (calculateUnits weights dayData v)
        = v * sumBy Prod.snd weights / 100
  | [], _ => by simp [calculateValue, calculateUnits, sumBy]
  | tw :: ws, h => by
    obtain ⟨p, hsome, hppos⟩ :=
      (hasPositivePrice_iff dayData tw.1).mp (h tw (List.mem_cons_self tw ws))
    have hrec := calculateValue_calculateUnits dayData v ws
      (fun x hx => h x (List.mem_cons_of_mem tw hx))
    rw [calculateValue_eq_sumBy] at hrec ⊢
    simp only [calculateUnits, List.map_cons] at *
    rw [sumBy_cons, sumBy_cons]
    simp only [hsome, hppos, if_true]
    rw [hrec]
    have hcontrib : (v * (tw.2 / 100) / p) * p = v * (tw.2 / 100) :=
      div_mul_cancel₀ _ (ne_of_gt hppos)
    rw [hcontrib]
    ring

/-- C2 counterexample: with weight map `{A: 50}` and day-0 price `A = 1`
(positive), the first value is `50 · initialInvestment/100 = 50`, not the
`initialInvestment = 100` the claim asserts: without a weights-sum-to-100
hypothesis the day-0 identity fails. -/
theorem calculatePortfolioHistory_day0_counterexample :
    (∀ tw ∈ ([("A", 50)] : WeightMap),
      hasPositivePrice ⟨⟨2020, 0, 1⟩, [("A", 1)]⟩ tw.1 = true) ∧
    (calculatePortfolioHistory [⟨⟨2020, 0, 1⟩, [("A", 1)]⟩] [("A", 50)] 100
      RebalanceFrequency.none).map ValuePoint.value = [50] ∧
    ((50 : ℚ) ≠ 100) := by
  refine ⟨by decide, ?_, by norm_num⟩
  norm_num [calculatePortfolioHistory, calculateUnits, calculateValue, priceOf,
    lookupPrice, historyLoop]

/-- C2 (amended): for a non-empty price sequence in which every ticker of
the weight map has a positive price on the first date, **and whose
weights sum to 100**, the first value of the series is exactly
`initialInvestment`.  (The counterexample forces the added sum-to-100
hypothesis; with weight sum `s` the first value is
`initialInvestment·s/100`.) -/
theorem calculatePortfolioHistory_day0_identity (day0 : DailyData)
    (rest : List DailyData) (weights : WeightMap) (initialInvestment : ℚ)
    (freq : RebalanceFrequency)
    (hpos : ∀ tw ∈ weights, hasPositivePrice day0 tw.1 = true)
    (hsum : sumBy Prod.snd weights = 100) :
    (calculatePortfolioHistory (day0 :: rest) weights initialInvestment freq).head?
      = some ⟨day0.date, initialInvestment⟩ := by
  simp only [calculatePortfolioHistory, List.head?_cons, Option.some.injEq]
  have hval := calculateValue_calculateUnits day0 initialInvestment weights hpos
  rw [hsum] at hval
  rw [hval]
  norm_num

/-- C2 witness: two tickers, weights 60 + 40 = 100, positive day-0
prices. -/
theorem calculatePortfolioHistory_day0_identity_witness :
    (calculatePortfolioHistory
      [⟨⟨2020, 0, 1⟩, [("A", 2), ("B", 5)]⟩] [("A", 60), ("B", 40)] 1000
      RebalanceFrequency.none).head? = some ⟨⟨2020, 0, 1⟩, 1000⟩ :=
  calculatePortfolioHistory_day0_identity ⟨⟨2020, 0, 1⟩, [("A", 2), ("B", 5)]⟩ []
    [("A", 60), ("B", 40)] 1000 RebalanceFrequency.none (by decide)
    (by norm_num [sumBy_cons, sumBy_nil])

lemma calculateUnits_scale (weights : WeightMap) (dayData : DailyData) (c v : ℚ) :
    calculateUnits weights dayData (c * v)
      = (calculateUnits weights dayData v).map (fun tu => (tu.1, c * tu.2)) := by
  induction weights with
  | nil => rfl
  | cons tw ws ih =>
    simp only [calculateUnits, List.map_cons] at ih ⊢
    refine congrArg₂ _ ?_ ih
    cases hp : priceOf dayData tw.1 with
    | none => simp
    | some p =>
      by_cases hpos : 0 < p
      · simp only [hp, hpos, if_true]
        rw [Prod.mk.injEq]
        exact ⟨rfl, by ring⟩
      · simp [hp, hpos]

lemma calculateValue_scale (dayData : DailyData) (units : List (Ticker × ℚ)) (c : ℚ) :
    calculateValue dayData (units.map (fun tu => (tu.1, c * tu.2)))
      = c * calculateValue dayData units := by
  rw [calculateValue_eq_sumBy, calculateValue_eq_sumBy, sumBy_map]
  rw [show (fun (tu : Ticker × ℚ) =>
      match priceOf dayData ((tu.1, c * tu.2) : Ticker × ℚ).1 with
      | some price => ((tu.1, c * tu.2) : Ticker × ℚ).2 * price
      | none => 0) = (fun tu => c * (match priceOf dayData tu.1 with
      | some price => tu.2 * price
      | none => 0)) from ?_]
  · exact sumBy_smul _ c units
  · funext tu
    cases hp : priceOf dayData tu.1 <;> simp [hp] <;> ring

lemma historyLoop_scale (weights : WeightMap) (freq : RebalanceFrequency) (c : ℚ) :
    ∀ (days : List DailyData) (units : List (Ticker × ℚ)) (d : DateYMD),
      historyLoop weights freq days (units.map (fun tu => (tu.1, c * tu.2))) d
        = (historyLoop weights freq days units d).map (fun p => ⟨p.date, c * p.value⟩)
  | [], _, _ => rfl
  | day :: rest, units, d => by
    by_cases h : shouldRebalance day.date d freq
    · simp only [historyLoop, h, if_true, List.map_cons]
      rw [calculateValue_scale day units c,
        calculateUnits_scale weights day c (calculateValue day units),
        calculateValue_scale day (calculateUnits weights day (calculateValue day units)) c,
        historyLoop_scale weights freq c rest
          (calculateUnits weights day (calculateValue day units)) day.date]
    · simp only [historyLoop, h, if_false, Bool.false_eq_true, List.map_cons]
      rw [calculateValue_scale day units c,
        historyLoop_scale weights freq c rest units d]

lemma calculatePortfolioHistory_scale (historicalData : List DailyData)
    (weights : WeightMap) (freq : RebalanceFrequency) (c k : ℚ) :
    calculatePortfolioHistory historicalData weights (c * k) freq
      = (calculatePortfolioHistory historicalData weights k freq).map
          (fun p => ⟨p.date, c * p.value⟩) := by
  cases historicalData with
  | nil => rfl
  | cons day0 rest =>
    simp only [calculatePortfolioHistory, List.map_cons]
    rw [calculateUnits_scale weights day0 c k,
      calculateValue_scale day0 (calculateUnits weights day0 k) c,
      historyLoop_scale weights freq c rest (calculateUnits weights day0 k) day0.date]

/-- C10: `calculatePortfolioHistory` is homogeneous of degree 1 in
`initialInvestment`: scaling the investment by `c ≥ 0` scales every value
of the series by `c`, and investment `0` yields an all-zero value
series. -/
theorem calculatePortfolioHistory_homogeneous (historicalData : List DailyData)
    (weights : WeightMap) (freq : RebalanceFrequency) (c k : ℚ) (hc : 0 ≤ c) :
    calculatePortfolioHistory historicalData weights (c * k) freq
      = (calculatePortfolioHistory historicalData weights k freq).map
          (fun p => ⟨p.date, c * p.value⟩) ∧
    ∀ p ∈ calculatePortfolioHistory historicalData weights 0 freq, p.value = 0 := by
  refine ⟨calculatePortfolioHistory_scale historicalData weights freq c k, ?_⟩
  intro p hp
  have h0 : calculatePortfolioHistory historicalData weights ((0 : ℚ) * 1) freq
      = (calculatePortfolioHistory historicalData weights 1 freq).map
          (fun p => ⟨p.date, 0 * p.value⟩) :=
    calculatePortfolioHistory_scale historicalData weights freq 0 1
  rw [zero_mul] at h0
  rw [h0] at hp
  obtain ⟨q, _, hq⟩ := List.mem_map.mp hp
  rw [← hq]
  simp

/-- C10 witness: doubling a concrete investment doubles the concrete
series, and investment 0 gives value 0. -/
theorem calculatePortfolioHistory_homogeneous_witness :
    calculatePortfolioHistory [⟨⟨2020, 0, 1⟩, [("A", 4)]⟩] [("A", 100)] (2 * 50)
        RebalanceFrequency.none
      = (calculatePortfolioHistory [⟨⟨2020, 0, 1⟩, [("A", 4)]⟩] [("A", 100)] 50
          RebalanceFrequency.none).map (fun p => ⟨p.date, 2 * p.value⟩) ∧
    ∀ p ∈ calculatePortfolioHistory [⟨⟨2020, 0, 1⟩, [("A", 4)]⟩] [("A", 100)] 0
        RebalanceFrequency.none, p.value = 0 :=
  calculatePortfolioHistory_homogeneous [⟨⟨2020, 0, 1⟩, [("A", 4)]⟩] [("A", 100)]
    RebalanceFrequency.none 2 50 (by norm_num)

lemma calculateValue_single (t : Ticker) (dayData : DailyData) (u p : ℚ)
    (hsome : priceOf dayData t = some p) :
    calculateValue dayData [(t, u)] = u * p := by
  simp [calculateValue, hsome]

lemma historyLoop_single_eq_none (t : Ticker) (freq : RebalanceFrequency) :
    ∀ (days : List DailyData) (u : ℚ) (d dn : DateYMD),
      (∀ dd ∈ days, hasPositivePrice dd t = true) →
      historyLoop [(t, 100)] freq days [(t, u)] d
        = historyLoop [(t, 100)] RebalanceFrequency.none days [(t, u)] dn
  | [], _, _, _, _ => rfl
  | day :: rest, u, d, dn, h => by
    obtain ⟨p, hsome, hpos⟩ :=
      (hasPositivePrice_iff day t).mp (h day (List.mem_cons_self day rest))
    have hrest : ∀ dd ∈ rest, hasPositivePrice dd t = true :=
      fun dd hd => h dd (List.mem_cons_of_mem day hd)
    have hnone : shouldRebalance day.date dn RebalanceFrequency.none = false := rfl
    by_cases hreb : shouldRebalance day.date d freq
    · have hunits : calculateUnits [(t, 100)] day (calculateValue day [(t, u)]) = [(t, u)] := by
        rw [calculateValue_single t day u p hsome]
        simp only [calculateUnits, List.map_cons, List.map_nil, hsome, hpos, if_true]
        have : u * p * (100 / 100 : ℚ) / p = u := by
          field_simp
        rw [this]
      simp only [historyLoop, hreb, if_true, hnone, if_false, Bool.false_eq_true]
      rw [hunits]
      exact congrArg _ (historyLoop_single_eq_none t freq rest u day.date dn hrest)
    · simp only [historyLoop, hreb, hnone, if_false, Bool.false_eq_true]
      exact congrArg _ (historyLoop_single_eq_none t freq rest u d dn hrest)

lemma calculateUnits_single_shape (t : Ticker) (dayData : DailyData) (v : ℚ) :
    ∃ u, calculateUnits [(t, 100)] dayData v = [(t, u)] := by
  simp only [calculateUnits, List.map_cons, List.map_nil]
  cases hp : priceOf dayData t with
  | none => exact ⟨0, rfl⟩
  | some p =>
    by_cases hpos : 0 < p
    · exact ⟨v * (100 / 100) / p, by simp [hpos]⟩
    · exact ⟨0, by simp [hpos]⟩

/-- C4 counterexample: a single-ticker portfolio at constant weight 100
whose price is 0 on a rebalance-trigger date (2021-01-01, one year and a
quarter after day 0).  `quarterly` and `annually` both rebalance on that
date at price 0 and wipe the position to 0 units, so their value series
end at 0, while `none` recovers: the claim fails for price sequences that
are not everywhere-positive. -/
theorem calculatePortfolioHistory_singleAsset_counterexample :
    (calculatePortfolioHistory
        [⟨⟨2020, 0, 1⟩, [("X", 100)]⟩, ⟨⟨2021, 0, 1⟩, [("X", 0)]⟩,
          ⟨⟨2021, 0, 2⟩, [("X", 100)]⟩] [("X", 100)] 100
        RebalanceFrequency.quarterly).map ValuePoint.value = [100, 0, 0] ∧
    (calculatePortfolioHistory
        [⟨⟨2020, 0, 1⟩, [("X", 100)]⟩, ⟨⟨2021, 0, 1⟩, [("X", 0)]⟩,
          ⟨⟨2021, 0, 2⟩, [("X", 100)]⟩] [("X", 100)] 100
        RebalanceFrequency.annually).map ValuePoint.value = [100, 0, 0] ∧
    (calculatePortfolioHistory
        [⟨⟨2020, 0, 1⟩, [("X", 100)]⟩, ⟨⟨2021, 0, 1⟩, [("X", 0)]⟩,
          ⟨⟨2021, 0, 2⟩, [("X", 100)]⟩] [("X", 100)] 100
        RebalanceFrequency.none).map ValuePoint.value = [100, 0, 100] ∧
    (([100, 0, 0] : List ℚ) ≠ [100, 0, 100]) := by
  refine ⟨?_, ?_, ?_, by norm_num⟩ <;>
    norm_num [calculatePortfolioHistory, calculateUnits, calculateValue, priceOf,
      lookupPrice, historyLoop, shouldRebalance]

/-- C4 (amended): for a single-ticker portfolio `{t: 100}` whose price is
a positive number on **every** date of the sequence, the `quarterly` and
`annually` policies each produce exactly the `none` policy's value
series.  (The counterexample forces the everywhere-positive-price
hypothesis, which the original claim lacked.) -/
theorem calculatePortfolioHistory_singleAsset_rebalance
    (historicalData : List DailyData) (t : Ticker) (initialInvestment : ℚ)
    (hpos : ∀ dd ∈ historicalData, hasPositivePrice dd t = true) :
    calculatePortfolioHistory historicalData [(t, 100)] initialInvestment
        RebalanceFrequency.quarterly
      = calculatePortfolioHistory historicalData [(t, 100)] initialInvestment
          RebalanceFrequency.none ∧
    calculatePortfolioHistory historicalData [(t, 100)] initialInvestment
        RebalanceFrequency.annually
      = calculatePortfolioHistory historicalData [(t, 100)] initialInvestment
          RebalanceFrequency.none := by
  cases historicalData with
  | nil => exact ⟨rfl, rfl⟩
  | cons day0 rest =>
    obtain ⟨u0, hu0⟩ := calculateUnits_single_shape t day0 initialInvestment
    have hrest : ∀ dd ∈ rest, hasPositivePrice dd t = true :=
      fun dd hd => hpos dd (List.mem_cons_of_mem day0 hd)
    constructor <;>
      (simp only [calculatePortfolioHistory, hu0]
       exact congrArg _ (historyLoop_single_eq_none t _ rest u0 day0.date day0.date hrest))

/-- C4 witness: two positive-price dates spanning a quarter and year
boundary. -/
theorem calculatePortfolioHistory_singleAsset_rebalance_witness :
    calculatePortfolioHistory
        [⟨⟨2020, 0, 1⟩, [("X", 100)]⟩, ⟨⟨2021, 3, 1⟩, [("X", 200)]⟩] [("X", 100)] 100
        RebalanceFrequency.quarterly
      = calculatePortfolioHistory
          [⟨⟨2020, 0, 1⟩, [("X", 100)]⟩, ⟨⟨2021, 3, 1⟩, [("X", 200)]⟩] [("X", 100)] 100
          RebalanceFrequency.none ∧
    calculatePortfolioHistory
        [⟨⟨2020, 0, 1⟩, [("X", 100)]⟩, ⟨⟨2021, 3, 1⟩, [("X", 200)]⟩] [("X", 100)] 100
        RebalanceFrequency.annually
      = calculatePortfolioHistory
          [⟨⟨2020, 0, 1⟩, [("X", 100)]⟩, ⟨⟨2021, 3, 1⟩, [("X", 200)]⟩] [("X", 100)] 100
          RebalanceFrequency.none :=
  calculatePortfolioHistory_singleAsset_rebalance
    [⟨⟨2020, 0, 1⟩, [("X", 100)]⟩, ⟨⟨2021, 3, 1⟩, [("X", 200)]⟩] "X" 100 (by decide)

lemma calculateUnits_zero_at (weights : WeightMap) (dayData : DailyData) (v : ℚ)
    (t : Ticker) (h : hasPositivePrice dayData t = false) :
    ∀ tu ∈ calculateUnits weights dayData v, tu.1 = t → tu.2 = 0 := by
  intro tu htu heq
  obtain ⟨tw, _, hmap⟩ := List.mem_map.mp htu
  have hle := (hasPositivePrice_false_iff dayData t).mp h
  cases hp : priceOf dayData tw.1 with
  | none => rw [← hmap]; simp [hp]
  | some p =>
    by_cases hpos : 0 < p
    · exfalso
      have hkey : tw.1 = t := by
        rw [← heq, ← hmap]
        cases hp2 : priceOf dayData tw.1 <;> simp [hp2] at hp ⊢
        split <;> rfl
      rw [hkey] at hp
      exact absurd (hle p hp) (not_le.mpr hpos)
    · rw [← hmap]; simp [hp, hpos]

lemma calculateValue_filter (dayData : DailyData) (t : Ticker) :
    ∀ (units : List (Ticker × ℚ)), (∀ tu ∈ units, tu.1 = t → tu.2 = 0) →
      calculateValue dayData (units.filter (fun tu => decide (tu.1 ≠ t)))
        = calculateValue dayData units
  | [], _ => rfl
  | tu :: rest, h => by
    have hrest := fun x hx => h x (List.mem_cons_of_mem tu hx)
    have ih := calculateValue_filter dayData t rest hrest
    by_cases hk : tu.1 = t
    · have hz : tu.2 = 0 := h tu (List.mem_cons_self tu rest) hk
      rw [List.filter_cons_of_neg (by simp [hk]), ih,
        calculateValue_eq_sumBy dayData (tu :: rest), sumBy_cons,
        ← calculateValue_eq_sumBy]
      cases hp : priceOf dayData tu.1 <;> simp [hp, hz]
    · rw [List.filter_cons_of_pos (by simp [hk]),
        calculateValue_eq_sumBy dayData (tu :: (rest.filter (fun tu => decide (tu.1 ≠ t)))),
        calculateValue_eq_sumBy dayData (tu :: rest), sumBy_cons, sumBy_cons,
        ← calculateValue_eq_sumBy, ← calculateValue_eq_sumBy, ih]

lemma calculateUnits_filter (weights : WeightMap) (dayData : DailyData) (v : ℚ)
    (t : Ticker) :
    calculateUnits (weights.filter (fun tw => decide (tw.1 ≠ t))) dayData v
      = (calculateUnits weights dayData v).filter (fun tu => decide (tu.1 ≠ t)) := by
  induction weights with
  | nil => rfl
  | cons tw ws ih =>
    have hkey : ((match priceOf dayData tw.1 with
        | some price =>
          if 0 < price then (tw.1, v * (tw.2 / 100) / price) else (tw.1, 0)
        | none => (tw.1, 0)) : Ticker × ℚ).1 = tw.1 := by
      cases hp : priceOf dayData tw.1 <;> simp [hp]
      split <;> rfl
    by_cases hk : tw.1 = t
    · rw [List.filter_cons_of_neg (by simp [hk])]
      simp only [calculateUnits, List.map_cons] at ih ⊢
      rw [ih, List.filter_cons_of_neg]
      simpa [hkey] using hk
    · rw [List.filter_cons_of_pos (by simp [hk])]
      simp only [calculateUnits, List.map_cons] at ih ⊢
      rw [ih, List.filter_cons_of_pos]
      simpa [hkey] using hk

lemma historyLoop_filter_none (weights : WeightMap) (t : Ticker) :
    ∀ (days : List DailyData) (units : List (Ticker × ℚ)) (d : DateYMD),
      (∀ tu ∈ units, tu.1 = t → tu.2 = 0) →
      historyLoop (weights.filter (fun tw => decide (tw.1 ≠ t)))
          RebalanceFrequency.none days
          (units.filter (fun tu => decide (tu.1 ≠ t))) d
        = historyLoop weights RebalanceFrequency.none days units d
  | [], _, _, _ => rfl
  | day :: rest, units, d, h => by
    have hfalse : ∀ dd : DateYMD, shouldRebalance dd d RebalanceFrequency.none = false :=
      fun _ => rfl
    simp only [historyLoop, hfalse, if_false, Bool.false_eq_true]
    rw [calculateValue_filter day t units h]
    exact congrArg _ (historyLoop_filter_none weights t rest units d h)

lemma historyLoop_filter_take (weights : WeightMap) (t : Ticker)
    (freq : RebalanceFrequency) :
    ∀ (days : List DailyData) (n : ℕ) (units : List (Ticker × ℚ)) (d : DateYMD),
      (∀ tu ∈ units, tu.1 = t → tu.2 = 0) →
      rebalanceAtPositiveWithin t freq n days d = false →
      (historyLoop (weights.filter (fun tw => decide (tw.1 ≠ t))) freq days
          (units.filter (fun tu => decide (tu.1 ≠ t))) d).take n
        = (historyLoop weights freq days units d).take n
  | [], _, _, _, _, _ => by simp [historyLoop]
  | _ :: _, 0, _, _, _, _ => by simp
  | day :: rest, n + 1, units, d, h, hflag => by
    by_cases hreb : shouldRebalance day.date d freq
    · simp only [rebalanceAtPositiveWithin, hreb, if_true, Bool.or_eq_false_iff] at hflag
      have hday : hasPositivePrice day t = false := hflag.1
      simp only [historyLoop, hreb, if_true]
      rw [calculateValue_filter day t units h,
        calculateUnits_filter weights day (calculateValue day units) t,
        calculateValue_filter day t (calculateUnits weights day (calculateValue day units))
          (calculateUnits_zero_at weights day (calculateValue day units) t hday)]
      rw [List.take_succ_cons, List.take_succ_cons]
      exact congrArg _ (historyLoop_filter_take weights t freq rest n
        (calculateUnits weights day (calculateValue day units)) day.date
        (calculateUnits_zero_at weights day (calculateValue day units) t hday) hflag.2)
    · simp only [rebalanceAtPositiveWithin, hreb, if_false, Bool.false_eq_true] at hflag
      simp only [historyLoop, hreb, if_false, Bool.false_eq_true]
      rw [calculateValue_filter day t units h, List.take_succ_cons, List.take_succ_cons]
      exact congrArg _ (historyLoop_filter_take weights t freq rest n units d h hflag)

/-- C3: if a weighted ticker's price on the first date is `0`, then
(1) `calculateUnits` assigns it `0` units at initialization; (2) under
any policy, on every prefix of the remaining days during which no
rebalance event fires on a date where the ticker's price is positive
(the only event that can recompute its units at a positive price — a
rebalance at a non-positive price keeps them at `0`), the value series is
identical to the series of the portfolio with that ticker removed from
the weight map: its contribution is `0` on every date until such an
event; (3) under the `none` policy no rebalance ever fires, and the whole
series is identical to the series without the ticker, i.e. its
contribution is `0` on every date. -/
theorem calculatePortfolioHistory_zeroPrice_zeroUnits (day0 : DailyData)
    (rest : List DailyData) (weights : WeightMap) (t : Ticker)
    (initialInvestment : ℚ) (freq : RebalanceFrequency)
    (hz : priceOf day0 t = some 0) :
    (∀ tu ∈ calculateUnits weights day0 initialInvestment, tu.1 = t → tu.2 = 0) ∧
    (∀ n : ℕ, rebalanceAtPositiveWithin t freq n rest day0.date = false →
      (calculatePortfolioHistory (day0 :: rest) weights initialInvestment freq).take (n + 1)
        = (calculatePortfolioHistory (day0 :: rest)
            (weights.filter (fun tw => decide (tw.1 ≠ t)))
            initialInvestment freq).take (n + 1)) ∧
    (calculatePortfolioHistory (day0 :: rest) weights initialInvestment
        RebalanceFrequency.none
      = calculatePortfolioHistory (day0 :: rest)
          (weights.filter (fun tw => decide (tw.1 ≠ t)))
          initialInvestment RebalanceFrequency.none) := by
  have hday0 : hasPositivePrice day0 t = false := by
    simp [hasPositivePrice, hz]
  have hunits0 := calculateUnits_zero_at weights day0 initialInvestment t hday0
  refine ⟨hunits0, ?_, ?_⟩
  · intro n hflag
    simp only [calculatePortfolioHistory]
    rw [List.take_succ_cons, List.take_succ_cons,
      calculateUnits_filter weights day0 initialInvestment t,
      calculateValue_filter day0 t (calculateUnits weights day0 initialInvestment) hunits0,
      historyLoop_filter_take weights t freq rest n
        (calculateUnits weights day0 initialInvestment) day0.date hunits0 hflag]
  · simp only [calculatePortfolioHistory]
    rw [calculateUnits_filter weights day0 initialInvestment t,
      calculateValue_filter day0 t (calculateUnits weights day0 initialInvestment) hunits0,
      historyLoop_filter_none weights t rest
        (calculateUnits weights day0 initialInvestment) day0.date hunits0]

/-- C3 witness: ticker `B` priced 0 on day 0; the next day `B`'s price
is positive but lies in the same quarter, so no rebalance fires under
`quarterly` and `B`'s contribution is still 0 on both days (prefix
conjunct), and under `none` the whole series equals the `A`-only
series. -/
theorem calculatePortfolioHistory_zeroPrice_zeroUnits_witness :
    (∀ tu ∈ calculateUnits [("A", 50), ("B", 50)]
        ⟨⟨2020, 0, 1⟩, [("A", 1), ("B", 0)]⟩ 100, tu.1 = "B" → tu.2 = 0) ∧
    (calculatePortfolioHistory
        [⟨⟨2020, 0, 1⟩, [("A", 1), ("B", 0)]⟩, ⟨⟨2020, 0, 2⟩, [("A", 2), ("B", 5)]⟩]
        [("A", 50), ("B", 50)] 100 RebalanceFrequency.quarterly).take 2
      = (calculatePortfolioHistory
          [⟨⟨2020, 0, 1⟩, [("A", 1), ("B", 0)]⟩, ⟨⟨2020, 0, 2⟩, [("A", 2), ("B", 5)]⟩]
          ([("A", 50), ("B", 50)].filter (fun tw => decide (tw.1 ≠ "B")))
          100 RebalanceFrequency.quarterly).take 2 ∧
    (calculatePortfolioHistory
        [⟨⟨2020, 0, 1⟩, [("A", 1), ("B", 0)]⟩, ⟨⟨2020, 0, 2⟩, [("A", 2), ("B", 5)]⟩]
        [("A", 50), ("B", 50)] 100 RebalanceFrequency.none
      = calculatePortfolioHistory
          [⟨⟨2020, 0, 1⟩, [("A", 1), ("B", 0)]⟩, ⟨⟨2020, 0, 2⟩, [("A", 2), ("B", 5)]⟩]
          ([("A", 50), ("B", 50)].filter (fun tw => decide (tw.1 ≠ "B")))
          100 RebalanceFrequency.none) :=
  ⟨(calculatePortfolioHistory_zeroPrice_zeroUnits ⟨⟨2020, 0, 1⟩, [("A", 1), ("B", 0)]⟩
      [⟨⟨2020, 0, 2⟩, [("A", 2), ("B", 5)]⟩] [("A", 50), ("B", 50)] "B" 100
      RebalanceFrequency.quarterly (by decide)).1,
    (calculatePortfolioHistory_zeroPrice_zeroUnits ⟨⟨2020, 0, 1⟩, [("A", 1), ("B", 0)]⟩
      [⟨⟨2020, 0, 2⟩, [("A", 2), ("B", 5)]⟩] [("A", 50), ("B", 50)] "B" 100
      RebalanceFrequency.quarterly (by decide)).2.1 1 (by decide),
    (calculatePortfolioHistory_zeroPrice_zeroUnits ⟨⟨2020, 0, 1⟩, [("A", 1), ("B", 0)]⟩
      [⟨⟨2020, 0, 2⟩, [("A", 2), ("B", 5)]⟩] [("A", 50), ("B", 50)] "B" 100
      RebalanceFrequency.none (by decide)).2.2⟩

/-- C1 witness: concrete empty and non-empty inputs. -/
theorem calculatePortfolioHistory_shape_witness :
    calculatePortfolioHistory [] [("A", 100)] 50 RebalanceFrequency.none = [] ∧
    (calculatePortfolioHistory [⟨⟨2020, 0, 1⟩, [("A", 3)]⟩] [("A", 100)] 50
      RebalanceFrequency.none).map ValuePoint.date = [⟨2020, 0, 1⟩] :=
  ⟨(calculatePortfolioHistory_shape [] [("A", 100)] 50 RebalanceFrequency.none).2.2 rfl,
    (calculatePortfolioHistory_shape [⟨⟨2020, 0, 1⟩, [("A", 3)]⟩] [("A", 100)] 50
      RebalanceFrequency.none).1⟩

/-- C5 witness: quarter rollover triggers `quarterly`, same quarter does
not; year rollover triggers `annually`. -/
theorem shouldRebalance_spec_witness :
    shouldRebalance ⟨2020, 3, 1⟩ ⟨2020, 0, 1⟩ RebalanceFrequency.quarterly = true ∧
    shouldRebalance ⟨2020, 3, 2⟩ ⟨2020, 3, 1⟩ RebalanceFrequency.none = false ∧
    shouldRebalance ⟨2021, 0, 1⟩ ⟨2020, 11, 1⟩ RebalanceFrequency.annually = true :=
  ⟨(shouldRebalance_spec ⟨2020, 3, 1⟩ ⟨2020, 0, 1⟩).2.1.mpr (by right; exact ⟨rfl, by norm_num⟩),
    (shouldRebalance_spec ⟨2020, 3, 2⟩ ⟨2020, 3, 1⟩).1,
    (shouldRebalance_spec ⟨2021, 0, 1⟩ ⟨2020, 11, 1⟩).2.2.mpr (by norm_num)⟩

lemma cs_step (x y s X Y : ℚ) (hX : 0 ≤ X) (hY : 0 ≤ Y) (IH : s ^ 2 ≤ X * Y) :
    (x * y + s) ^ 2 ≤ (x * x + X) * (y * y + Y) := by
  rcases eq_or_lt_of_le hY with hY0 | hY0
  · have hY' : Y = 0 := hY0.symm
    rw [hY', mul_zero] at IH
    have hs : s = 0 := by nlinarith [sq_nonneg s]
    rw [hY', hs]
    nlinarith [mul_nonneg hX (mul_self_nonneg y)]
  · nlinarith [sq_nonneg (x * Y - y * s),
      mul_nonneg (add_nonneg (mul_self_nonneg y) hY) (sub_nonneg.mpr IH), hY0]

lemma sumBy_mul_self_nonneg {α : Type} (f : α → ℚ) (l : List α) :
    0 ≤ sumBy (fun x => f x * f x) l :=
  sumBy_nonneg (fun x _ => mul_self_nonneg (f x))

/-- Cauchy–Schwarz for lists of paired rationals. -/
lemma list_cauchy_schwarz (l : List (ℚ × ℚ)) :
    (sumBy (fun p => p.1 * p.2) l) ^ 2
      ≤ sumBy (fun p => p.1 * p.1) l * sumBy (fun p => p.2 * p.2) l := by
  induction l with
  | nil => simp [sumBy_nil]
  | cons a l ih =>
    rw [sumBy_cons, sumBy_cons, sumBy_cons]
    exact cs_step a.1 a.2 _ _ _ (sumBy_nonneg fun x _ => mul_self_nonneg _)
      (sumBy_nonneg fun x _ => mul_self_nonneg _) ih

lemma zip_self {α : Type} : ∀ (l : List α), l.zip l = l.map (fun x => (x, x))
  | [] => rfl
  | a :: l => by
    simp only [List.zip_cons_cons, List.map_cons]
    exact congrArg _ (zip_self l)

lemma corrSumXSquared_nonneg (xs ys : List ℚ) : 0 ≤ corrSumXSquared xs ys :=
  sumBy_nonneg (fun p _ => mul_self_nonneg _)

lemma corrSumYSquared_nonneg (xs ys : List ℚ) : 0 ≤ corrSumYSquared xs ys :=
  sumBy_nonneg (fun p _ => mul_self_nonneg _)

/-- The correlation accumulators satisfy Cauchy–Schwarz. -/
lemma corrNumerator_sq_le (xs ys : List ℚ) :
    (corrNumerator xs ys) ^ 2 ≤ corrSumXSquared xs ys * corrSumYSquared xs ys := by
  have h := list_cauchy_schwarz
    ((xs.zip ys).map (fun p => (p.1 - corrMeanX xs, p.2 - corrMeanY xs ys)))
  rw [sumBy_map, sumBy_map, sumBy_map] at h
  exact h

lemma calculateCorrelation_eq (xs ys : List ℚ)
    (h : ¬(xs.length ≠ ys.length ∨ xs.length < 2)) :
    calculateCorrelation xs ys =
      if Real.sqrt ((corrSumXSquared xs ys * corrSumYSquared xs ys : ℚ) : ℝ) = 0 then 0
      else ((corrNumerator xs ys : ℚ) : ℝ) /
        Real.sqrt ((corrSumXSquared xs ys * corrSumYSquared xs ys : ℚ) : ℝ) := by
  unfold calculateCorrelation
  rw [if_neg h]

/-- C9: `calculateCorrelation` always lies in `[-1, 1]`; a list
correlated with itself yields `1` whenever its centered sum of squares is
nonzero; and on equal-length lists of at least 2 samples it computes
exactly the specification's Pearson formula, including the
`0`-when-either-sum-of-squares-is-`0` guard. -/
theorem calculateCorrelation_spec :
    (∀ xs ys : List ℚ,
      -1 ≤ calculateCorrelation xs ys ∧ calculateCorrelation xs ys ≤ 1) ∧
    (∀ xs : List ℚ, 2 ≤ xs.length → corrSumXSquared xs xs ≠ 0 →
      calculateCorrelation xs xs = 1) ∧
    (∀ xs ys : List ℚ, xs.length = ys.length → 2 ≤ xs.length →
      calculateCorrelation xs ys = pearsonSpec xs ys) := by
  refine ⟨?_, ?_, ?_⟩
  · intro xs ys
    by_cases hguard : xs.length ≠ ys.length ∨ xs.length < 2
    · unfold calculateCorrelation
      rw [if_pos hguard]
      norm_num
    · rw [calculateCorrelation_eq xs ys hguard]
      by_cases hd : Real.sqrt ((corrSumXSquared xs ys * corrSumYSquared xs ys : ℚ) : ℝ) = 0
      · rw [if_pos hd]; norm_num
      · rw [if_neg hd]
        have hd0 : 0 < Real.sqrt ((corrSumXSquared xs ys * corrSumYSquared xs ys : ℚ) : ℝ) :=
          (Real.sqrt_nonneg _).lt_of_ne (Ne.symm hd)
        have hcs : ((corrNumerator xs ys : ℚ) : ℝ) ^ 2
            ≤ ((corrSumXSquared xs ys * corrSumYSquared xs ys : ℚ) : ℝ) := by
          exact_mod_cast corrNumerator_sq_le xs ys
        have habs : |((corrNumerator xs ys : ℚ) : ℝ)|
            ≤ Real.sqrt ((corrSumXSquared xs ys * corrSumYSquared xs ys : ℚ) : ℝ) := by
          rw [← Real.sqrt_sq_eq_abs]
          exact Real.sqrt_le_sqrt hcs
        have hlo := (abs_le.mp habs).1
        have hhi := (abs_le.mp habs).2
        constructor
        · rw [le_div_iff hd0]; linarith
        · rw [div_le_one hd0]; linarith
  · intro xs h2 hS
    have hguard : ¬(xs.length ≠ xs.length ∨ xs.length < 2) := by
      push_neg
      exact ⟨rfl, h2⟩
    have hYX : corrSumYSquared xs xs = corrSumXSquared xs xs := by
      unfold corrSumYSquared corrSumXSquared corrMeanY corrMeanX
      rw [zip_self, sumBy_map, sumBy_map]
    have hNX : corrNumerator xs xs = corrSumXSquared xs xs := by
      unfold corrNumerator corrSumXSquared corrMeanY corrMeanX
      rw [zip_self, sumBy_map, sumBy_map]
    have hXnn : (0 : ℚ) ≤ corrSumXSquared xs xs := corrSumXSquared_nonneg xs xs
    have hsqrt : Real.sqrt ((corrSumXSquared xs xs * corrSumXSquared xs xs : ℚ) : ℝ)
        = ((corrSumXSquared xs xs : ℚ) : ℝ) := by
      push_cast
      exact Real.sqrt_mul_self (by exact_mod_cast hXnn)
    have hScast : ((corrSumXSquared xs xs : ℚ) : ℝ) ≠ 0 := by
      exact_mod_cast hS
    rw [calculateCorrelation_eq xs xs hguard, hYX, hNX, hsqrt, if_neg hScast]
    exact div_self hScast
  · intro xs ys hlen h2
    have hguard : ¬(xs.length ≠ ys.length ∨ xs.length < 2) := by
      push_neg
      exact ⟨hlen, h2⟩
    have hybar : sumBy id ys / (ys.length : ℚ) = corrMeanY xs ys := by
      unfold corrMeanY
      rw [hlen]
    have hsx : sumBy (fun p => (p.1 - sumBy id xs / (xs.length : ℚ)) ^ 2) (xs.zip ys)
        = corrSumXSquared xs ys := by
      unfold corrSumXSquared corrMeanX
      exact sumBy_congr (fun p _ => by rw [pow_two])
    have hsy : sumBy (fun p => (p.2 - sumBy id ys / (ys.length : ℚ)) ^ 2) (xs.zip ys)
        = corrSumYSquared xs ys := by
      unfold corrSumYSquared
      rw [← hybar]
      exact sumBy_congr (fun p _ => by rw [pow_two])
    have hnum : sumBy (fun p => (p.1 - sumBy id xs / (xs.length : ℚ)) *
          (p.2 - sumBy id ys / (ys.length : ℚ))) (xs.zip ys)
        = corrNumerator xs ys := by
      unfold corrNumerator corrMeanX
      rw [← hybar]
    have hcond : (Real.sqrt ((corrSumXSquared xs ys * corrSumYSquared xs ys : ℚ) : ℝ) = 0)
        ↔ (corrSumXSquared xs ys = 0 ∨ corrSumYSquared xs ys = 0) := by
      rw [Real.sqrt_eq_zero']
      constructor
      · intro hle
        have : (corrSumXSquared xs ys * corrSumYSquared xs ys : ℚ) ≤ 0 := by
          exact_mod_cast hle
        have h0 : (corrSumXSquared xs ys * corrSumYSquared xs ys : ℚ) = 0 :=
          le_antisymm this
            (mul_nonneg (corrSumXSquared_nonneg xs ys) (corrSumYSquared_nonneg xs ys))
        exact mul_eq_zero.mp h0
      · intro h
        have h0 : (corrSumXSquared xs ys * corrSumYSquared xs ys : ℚ) = 0 := by
          rcases h with h | h <;> rw [h] <;> ring
        rw [h0]
        norm_num
    rw [calculateCorrelation_eq xs ys hguard]
    unfold pearsonSpec
    simp only [hsx, hsy, hnum]
    rw [if_congr hcond rfl rfl]

/-- C9 witness: concrete bounds, self-correlation, and refinement
instances. -/
theorem calculateCorrelation_spec_witness :
    (-1 ≤ calculateCorrelation [1, 2] [3, 4] ∧ calculateCorrelation [1, 2] [3, 4] ≤ 1) ∧
    calculateCorrelation [0, 1] [0, 1] = 1 ∧
    calculateCorrelation [0, 1] [1, 0] = pearsonSpec [0, 1] [1, 0] :=
  ⟨calculateCorrelation_spec.1 [1, 2] [3, 4],
    calculateCorrelation_spec.2.1 [0, 1] (by norm_num)
      (by norm_num [corrSumXSquared, corrMeanX, sumBy, List.zip]),
    calculateCorrelation_spec.2.2 [0, 1] [1, 0] rfl (by norm_num)⟩

lemma runChunk_append (k : ℕ × ℕ) : ∀ (l : List ValuePoint),
    (runChunk k l).1 ++ (runChunk k l).2 = l
  | [] => rfl
  | v :: rest => by
    by_cases hk : monthKeyOf v.date = k
    · simp only [runChunk, hk, if_true, List.cons_append]
      exact congrArg _ (runChunk_append k rest)
    · simp [runChunk, hk]

lemma runChunk_fst_keys (k : ℕ × ℕ) : ∀ (l : List ValuePoint),
    ∀ x ∈ (runChunk k l).1, monthKeyOf x.date = k
  | [] => by simp [runChunk]
  | v :: rest => by
    by_cases hk : monthKeyOf v.date = k
    · simp only [runChunk, hk, if_true]
      intro x hx
      rcases List.mem_cons.mp hx with h | h
      · rw [h]; exact hk
      · exact runChunk_fst_keys k rest x h
    · simp [runChunk, hk]

lemma runChunk_snd_head (k : ℕ × ℕ) : ∀ (l : List ValuePoint) (w : ValuePoint)
    (ws : List ValuePoint), (runChunk k l).2 = w :: ws → monthKeyOf w.date ≠ k
  | [], w, ws => by simp [runChunk]
  | v :: rest, w, ws => by
    by_cases hk : monthKeyOf v.date = k
    · simp only [runChunk, hk, if_true]
      exact runChunk_snd_head k rest w ws
    · simp only [runChunk, hk, if_false]
      intro h
      rw [(List.cons.injEq _ _ _ _).mp h |>.1] at hk
      exact hk

lemma runChunk_snd_length (k : ℕ × ℕ) : ∀ (l : List ValuePoint),
    (runChunk k l).2.length ≤ l.length
  | [] => le_refl _
  | v :: rest => by
    by_cases hk : monthKeyOf v.date = k
    · simp only [runChunk, hk, if_true]
      exact le_trans (runChunk_snd_length k rest) (Nat.le_succ _)
    · simp [runChunk, hk]

lemma monthRuns_cons (v : ValuePoint) : ∀ (rest : List ValuePoint),
    monthRuns (v :: rest)
      = (v :: (runChunk (monthKeyOf v.date) rest).1)
          :: monthRuns (runChunk (monthKeyOf v.date) rest).2
  | [] => rfl
  | w :: rest2 => by
    have ihw := monthRuns_cons w rest2
    by_cases hk : monthKeyOf w.date = monthKeyOf v.date
    · simp only [runChunk, hk, if_true]
      show (match monthRuns (w :: rest2) with
        | [] => [[v]]
        | [] :: rs => [v] :: rs
        | (w1 :: ws) :: rs =>
          if monthKeyOf v.date = monthKeyOf w1.date then (v :: w1 :: ws) :: rs
          else [v] :: (w1 :: ws) :: rs) = _
      rw [ihw, hk]
      exact if_pos hk.symm
    · simp only [runChunk, hk, if_false]
      show (match monthRuns (w :: rest2) with
        | [] => [[v]]
        | [] :: rs => [v] :: rs
        | (w1 :: ws) :: rs =>
          if monthKeyOf v.date = monthKeyOf w1.date then (v :: w1 :: ws) :: rs
          else [v] :: (w1 :: ws) :: rs) = _
      have hvw : ¬ monthKeyOf v.date = monthKeyOf w.date := fun h => hk h.symm
      rw [ihw]
      exact if_neg hvw

lemma getLast?_cons_getD {α : Type} : ∀ (l : List α) (a e : α),
    ((a :: l).getLast?).getD e = (l.getLast?).getD a
  | [], _, _ => rfl
  | b :: l, a, e => by
    rw [List.getLast?_cons_cons]
    rw [getLast?_cons_getD l b e, getLast?_cons_getD l b a]

lemma monthlyLoop_chunk : ∀ (rest : List ValuePoint) (k : ℕ × ℕ) (s e : ValuePoint),
    monthlyLoop k s e rest
      = ⟨k, (((runChunk k rest).1.getLast?.getD e).value / s.value) - 1, s.value,
          ((runChunk k rest).1.getLast?.getD e).value⟩
        :: (match (runChunk k rest).2 with
            | [] => []
            | w :: ws => monthlyLoop (monthKeyOf w.date) w w ws)
  | [], k, s, e => rfl
  | day :: rest2, k, s, e => by
    by_cases hk : monthKeyOf day.date = k
    · simp only [monthlyLoop, hk, if_true, runChunk]
      rw [monthlyLoop_chunk rest2 k s day, getLast?_cons_getD]
    · simp only [monthlyLoop, hk, if_false, runChunk]
      rfl

lemma monthlyLoop_runs (l : List ValuePoint) : ∀ (v : ValuePoint),
    monthlyLoop (monthKeyOf v.date) v v l = (monthRuns (v :: l)).map mpOfRun := by
  intro v
  rw [monthlyLoop_chunk l (monthKeyOf v.date) v v, monthRuns_cons v l, List.map_cons]
  refine congrArg₂ List.cons ?_ ?_
  · show _ = mpOfRun (v :: (runChunk (monthKeyOf v.date) l).1)
    simp only [mpOfRun]
  · cases hr : (runChunk (monthKeyOf v.date) l).2 with
    | nil => rfl
    | cons w ws =>
      have hlen : ws.length < l.length := by
        have h1 := runChunk_snd_length (monthKeyOf v.date) l
        rw [hr] at h1
        simp only [List.length_cons] at h1
        omega
      exact monthlyLoop_runs ws w
  termination_by l.length

lemma monthRuns_join : ∀ (l : List ValuePoint), (monthRuns l).flatten = l
  | [] => rfl
  | v :: rest => by
    rw [monthRuns_cons v rest]
    have hlen : (runChunk (monthKeyOf v.date) rest).2.length ≤ rest.length :=
      runChunk_snd_length (monthKeyOf v.date) rest
    rw [List.flatten_cons, monthRuns_join (runChunk (monthKeyOf v.date) rest).2,
      List.cons_append, runChunk_append (monthKeyOf v.date) rest]
  termination_by l => l.length
  decreasing_by simp only [List.length_cons]; omega

lemma keyLE_trans {a b c : ℕ × ℕ} (h1 : keyLE a b) (h2 : keyLE b c) : keyLE a c := by
  unfold keyLE at *
  omega

lemma keyLT_of_keyLE_ne {a b : ℕ × ℕ} (h1 : keyLE a b) (h2 : a ≠ b) : keyLT a b := by
  unfold keyLE at h1
  unfold keyLT
  have hne : ¬(a.1 = b.1 ∧ a.2 = b.2) := fun hq => h2 (Prod.ext hq.1 hq.2)
  omega

lemma keyLT_of_keyLT_keyLE {a b c : ℕ × ℕ} (h1 : keyLT a b) (h2 : keyLE b c) :
    keyLT a c := by
  unfold keyLT at *
  unfold keyLE at h2
  omega

lemma keyLT_ne {a b : ℕ × ℕ} (h : keyLT a b) : a ≠ b := by
  intro he
  rw [he] at h
  unfold keyLT at h
  omega

/-- On a month-sorted series, the head's key is `keyLE` every element's
key. -/
lemma chain_keyLE_head : ∀ (ws : List ValuePoint) (w : ValuePoint),
    List.Chain' (fun p q : ValuePoint => keyLE (monthKeyOf p.date) (monthKeyOf q.date))
      (w :: ws) →
    ∀ x ∈ w :: ws, keyLE (monthKeyOf w.date) (monthKeyOf x.date)
  | [], w, _ => by
    intro x hx
    rw [List.mem_singleton.mp hx]
    unfold keyLE
    omega
  | u :: ws, w, hch => by
    intro x hx
    have hwu : keyLE (monthKeyOf w.date) (monthKeyOf u.date) := (List.chain'_cons.mp hch).1
    have hch2 := (List.chain'_cons.mp hch).2
    rcases List.mem_cons.mp hx with h | h
    · rw [h]
      unfold keyLE
      omega
    · exact keyLE_trans hwu (chain_keyLE_head ws u hch2 x h)

/-- Every run of `monthRuns` is nonempty, starts with an element of the
input, and all its points share the head's month key. -/
lemma monthRuns_runs_spec : ∀ (l : List ValuePoint), ∀ run ∈ monthRuns l,
    ∃ w ws, run = w :: ws ∧ w ∈ l ∧
      ∀ x ∈ run, monthKeyOf x.date = monthKeyOf w.date
  | [] => by simp [monthRuns]
  | v :: rest => by
    intro run hrun
    rw [monthRuns_cons v rest] at hrun
    rcases List.mem_cons.mp hrun with h | h
    · refine ⟨v, (runChunk (monthKeyOf v.date) rest).1, h, List.mem_cons_self v rest, ?_⟩
      intro x hx
      rw [h] at hx
      rcases List.mem_cons.mp hx with h2 | h2
      · rw [h2]
      · exact runChunk_fst_keys (monthKeyOf v.date) rest x h2
    · have hlen : (runChunk (monthKeyOf v.date) rest).2.length ≤ rest.length :=
        runChunk_snd_length (monthKeyOf v.date) rest
      obtain ⟨w, ws, hrw, hmem, hkeys⟩ :=
        monthRuns_runs_spec (runChunk (monthKeyOf v.date) rest).2 run h
      refine ⟨w, ws, hrw, ?_, hkeys⟩
      have hsub : w ∈ rest := by
        have := runChunk_append (monthKeyOf v.date) rest
        rw [← this]
        exact List.mem_append_right _ hmem
      exact List.mem_cons_of_mem v hsub
  termination_by l => l.length
  decreasing_by simp only [List.length_cons]; omega

/-- On a month-sorted series, the months of the runs are pairwise
distinct: each calendar month groups into exactly one run. -/
lemma monthRuns_months_pairwise : ∀ (l : List ValuePoint),
    List.Chain' (fun p q : ValuePoint => keyLE (monthKeyOf p.date) (monthKeyOf q.date)) l →
    ((monthRuns l).map (fun run => (mpOfRun run).month)).Pairwise (· ≠ ·)
  | [], _ => by simp [monthRuns]
  | v :: rest, hch => by
    have hrest : List.Chain'
        (fun p q : ValuePoint => keyLE (monthKeyOf p.date) (monthKeyOf q.date)) rest :=
      hch.tail
    have happ := runChunk_append (monthKeyOf v.date) rest
    have hchr : List.Chain'
        (fun p q : ValuePoint => keyLE (monthKeyOf p.date) (monthKeyOf q.date))
        (runChunk (monthKeyOf v.date) rest).2 := by
      have h2 : List.Chain'
          (fun p q : ValuePoint => keyLE (monthKeyOf p.date) (monthKeyOf q.date))
          ((runChunk (monthKeyOf v.date) rest).1 ++ (runChunk (monthKeyOf v.date) rest).2) := by
        rw [happ]; exact hrest
      exact (List.chain'_append.mp h2).2.1
    have hlen : (runChunk (monthKeyOf v.date) rest).2.length ≤ rest.length :=
      runChunk_snd_length (monthKeyOf v.date) rest
    rw [monthRuns_cons v rest, List.map_cons]
    refine List.pairwise_cons.mpr ⟨?_, monthRuns_months_pairwise _ hchr⟩
    intro k2 hk2
    obtain ⟨run, hrun, hkeq⟩ := List.mem_map.mp hk2
    obtain ⟨w1, ws1, hrw1, hmem1, _⟩ :=
      monthRuns_runs_spec (runChunk (monthKeyOf v.date) rest).2 run hrun
    cases hr : (runChunk (monthKeyOf v.date) rest).2 with
    | nil =>
      rw [hr] at hrun
      simp [monthRuns] at hrun
    | cons w ws =>
      have hwk : monthKeyOf w.date ≠ monthKeyOf v.date :=
        runChunk_snd_head (monthKeyOf v.date) rest w ws hr
      have hwmem : w ∈ rest := by
        rw [← happ, hr]
        exact List.mem_append_right _ (List.mem_cons_self w ws)
      have hle_vw : keyLE (monthKeyOf v.date) (monthKeyOf w.date) :=
        chain_keyLE_head rest v hch w (List.mem_cons_of_mem v hwmem)
      have hlt_vw : keyLT (monthKeyOf v.date) (monthKeyOf w.date) :=
        keyLT_of_keyLE_ne hle_vw (Ne.symm hwk)
      have hmem1' : w1 ∈ w :: ws := by rw [← hr]; exact hmem1
      have hle_ww1 : keyLE (monthKeyOf w.date) (monthKeyOf w1.date) := by
        have hchw : List.Chain'
            (fun p q : ValuePoint => keyLE (monthKeyOf p.date) (monthKeyOf q.date))
            (w :: ws) := by rw [← hr]; exact hchr
        exact chain_keyLE_head ws w hchw w1 hmem1'
      have hne : monthKeyOf v.date ≠ monthKeyOf w1.date :=
        keyLT_ne (keyLT_of_keyLT_keyLE hlt_vw hle_ww1)
      have hk2eq : k2 = monthKeyOf w1.date := by
        rw [← hkeq, hrw1]
        rfl
      show (mpOfRun (v :: (runChunk (monthKeyOf v.date) rest).1)).month ≠ k2
      rw [hk2eq]
      exact hne
  termination_by l => l.length
  decreasing_by simp only [List.length_cons]; omega

/-- `Array.reduce`-style fold `if better m b then m else b` picks the
first occurrence of a maximal element (w.r.t. `better`): the list splits
as `l1 ++ best :: l2` with nothing better than `best` anywhere and
`best` strictly better than everything in `l1`. -/
lemma foldl_pick_first {α : Type} (better : α → α → Prop) [DecidableRel better]
    (htrans : ∀ a b c, better a b → better b c → better a c)
    (hirr : ∀ a, ¬ better a a)
    (hneg : ∀ a b c, ¬ better a b → better c b → better c a) :
    ∀ (t : List α) (h : α),
      ∃ l1 l2, h :: t = l1 ++ (t.foldl (fun b m => if better m b then m else b) h) :: l2 ∧
        (∀ x ∈ h :: t, ¬ better x (t.foldl (fun b m => if better m b then m else b) h)) ∧
        (∀ x ∈ l1, better (t.foldl (fun b m => if better m b then m else b) h) x)
  | [], h => ⟨[], [], rfl, by
      intro x hx
      rw [List.mem_singleton.mp hx]
      exact hirr _, by simp⟩
  | m :: t2, h => by
    simp only [List.foldl_cons]
    by_cases hbm : better m h
    · rw [if_pos hbm]
      obtain ⟨l1, l2, hsplit, hnb, hfirst⟩ := foldl_pick_first better htrans hirr hneg t2 m
      set B := t2.foldl (fun b m => if better m b then m else b) m with hB
      have hBh : better B h := by
        cases l1 with
        | nil =>
          have : m = B := by
            have := hsplit
            simp only [List.nil_append] at this
            exact (List.cons.injEq _ _ _ _).mp this |>.1
          rw [← this]
          exact hbm
        | cons a l1' =>
          have ham : a = m := by
            have := hsplit
            simp only [List.cons_append] at this
            exact ((List.cons.injEq _ _ _ _).mp this).1.symm
          have hBm : better B m := by
            rw [← ham]
            exact hfirst a (List.mem_cons_self a l1')
          exact htrans B m h hBm hbm
      refine ⟨h :: l1, l2, ?_, ?_, ?_⟩
      · rw [List.cons_append, hsplit]
      · intro x hx
        rcases List.mem_cons.mp hx with hxh | hxt
        · rw [hxh]
          intro hcon
          exact hnb m (List.mem_cons_self m t2) (htrans m h B hbm hcon)
        · exact hnb x hxt
      · intro x hx
        rcases List.mem_cons.mp hx with hxh | hxt
        · rw [hxh]; exact hBh
        · exact hfirst x hxt
    · rw [if_neg hbm]
      obtain ⟨l1, l2, hsplit, hnb, hfirst⟩ := foldl_pick_first better htrans hirr hneg t2 h
      set B := t2.foldl (fun b m => if better m b then m else b) h with hB
      cases l1 with
      | nil =>
        have hhB : h = B := by
          have := hsplit
          simp only [List.nil_append] at this
          exact (List.cons.injEq _ _ _ _).mp this |>.1
        refine ⟨[], m :: t2, by rw [← hhB]; rfl, ?_, by simp⟩
        intro x hx
        rcases List.mem_cons.mp hx with hxh | hxt
        · rw [hxh, ← hhB]; exact hirr h
        · rcases List.mem_cons.mp hxt with hxm | hxt2
          · rw [hxm, ← hhB]; exact hbm
          · exact hnb x (List.mem_cons_of_mem h hxt2)
      | cons a l1' =>
        have hah : a = h := by
          have := hsplit
          simp only [List.cons_append] at this
          exact ((List.cons.injEq _ _ _ _).mp this).1.symm
        have ht2split : t2 = l1' ++ B :: l2 := by
          have := hsplit
          simp only [List.cons_append] at this
          exact ((List.cons.injEq _ _ _ _).mp this).2
        have hBh : better B h := by
          rw [← hah]
          exact hfirst a (List.mem_cons_self a l1')
        have hBm : better B m := hneg m h B hbm hBh
        refine ⟨h :: m :: l1', l2, ?_, ?_, ?_⟩
        · simp only [List.cons_append, ht2split]
        · intro x hx
          rcases List.mem_cons.mp hx with hxh | hxt
          · rw [hxh]; exact hnb h (List.mem_cons_self h t2)
          · rcases List.mem_cons.mp hxt with hxm | hxt2
            · rw [hxm]
              intro hcon
              exact hbm (htrans m B h hcon hBh)
            · exact hnb x (List.mem_cons_of_mem h hxt2)
        · intro x hx
          rcases List.mem_cons.mp hx with hxh | hxt
          · rw [hxh]; exact hBh
          · rcases List.mem_cons.mp hxt with hxm | hxt2
            · rw [hxm]; exact hBm
            · exact hfirst x (List.mem_cons_of_mem a hxt2)

lemma calculateMonthlyPerformance_eq (v0 : ValuePoint) (vrest : List ValuePoint)
    (h2 : 2 ≤ (v0 :: vrest).length) (m0 : MonthlyPerformance)
    (ms : List MonthlyPerformance)
    (hloop : monthlyLoop (monthKeyOf v0.date) v0 v0 vrest = m0 :: ms) :
    calculateMonthlyPerformance (v0 :: vrest) = some {
      averageReturn := sumBy (fun m => m.ret) (m0 :: ms) / ((m0 :: ms).length : ℚ)
      upMonths := ((m0 :: ms).filter (fun m => decide (0 < m.ret))).length
      downMonths := ((m0 :: ms).filter (fun m => decide (m.ret ≤ 0))).length
      bestMonth := ms.foldl (fun best m => if best.ret < m.ret then m else best) m0
      worstMonth := ms.foldl (fun worst m => if m.ret < worst.ret then m else worst) m0
      monthlyData := m0 :: ms } := by
  unfold calculateMonthlyPerformance
  rw [if_neg (Nat.not_lt.mpr h2)]
  show ((match monthlyLoop (monthKeyOf v0.date) v0 v0 vrest with
    | [] => none
    | m0 :: ms =>
      let monthlyData := m0 :: ms
      some {
        averageReturn := sumBy (fun m => m.ret) monthlyData / (monthlyData.length : ℚ)
        upMonths := (monthlyData.filter (fun m => decide (0 < m.ret))).length
        downMonths := (monthlyData.filter (fun m => decide (m.ret ≤ 0))).length
        bestMonth := ms.foldl (fun best m => if best.ret < m.ret then m else best) m0
        worstMonth := ms.foldl (fun worst m => if m.ret < worst.ret then m else worst) m0
        monthlyData := monthlyData }) : Option MonthlyStats) = _
  rw [hloop]

/-- C8 (amended): for a month-sorted value series of at least 2 points,
`calculateMonthlyPerformance` returns stats whose `monthlyData` is
exactly one entry per maximal same-month run — start/end values are the
first/last point of the month, return is `endValue/startValue − 1`, and
a single-point month has return 0 **provided its value is nonzero** (the
counterexample forces that qualifier); the months are pairwise distinct;
`upMonths` counts exactly the months with return `> 0` and `downMonths`
those with return `≤ 0`; `bestMonth`/`worstMonth` attain the maximal /
minimal return with the first occurrence winning ties. -/
theorem calculateMonthlyPerformance_spec (portfolioValues : List ValuePoint)
    (v0 : ValuePoint) (vrest : List ValuePoint)
    (hv : portfolioValues = v0 :: vrest)
    (h2 : 2 ≤ portfolioValues.length)
    (hsort : portfolioValues.Chain'
      (fun p q : ValuePoint => keyLE (monthKeyOf p.date) (monthKeyOf q.date))) :
    ∃ s, calculateMonthlyPerformance portfolioValues = some s ∧
      s.monthlyData = (monthRuns portfolioValues).map mpOfRun ∧
      (monthRuns portfolioValues).flatten = portfolioValues ∧
      (∀ run ∈ monthRuns portfolioValues, ∃ w ws, run = w :: ws ∧
        ∀ x ∈ run, monthKeyOf x.date = monthKeyOf w.date) ∧
      (∀ run ∈ monthRuns portfolioValues, ∀ w, run = [w] → w.value ≠ 0 →
        (mpOfRun run).ret = 0) ∧
      (s.monthlyData.map MonthlyPerformance.month).Pairwise (· ≠ ·) ∧
      s.upMonths = (s.monthlyData.filter (fun m => decide (0 < m.ret))).length ∧
      s.downMonths = (s.monthlyData.filter (fun m => decide (m.ret ≤ 0))).length ∧
      (∃ l1 l2, s.monthlyData = l1 ++ s.bestMonth :: l2 ∧
        (∀ m ∈ s.monthlyData, m.ret ≤ s.bestMonth.ret) ∧
        (∀ m ∈ l1, m.ret < s.bestMonth.ret)) ∧
      (∃ l1 l2, s.monthlyData = l1 ++ s.worstMonth :: l2 ∧
        (∀ m ∈ s.monthlyData, s.worstMonth.ret ≤ m.ret) ∧
        (∀ m ∈ l1, s.worstMonth.ret < m.ret)) := by
  subst hv
  have hRL : (monthRuns (v0 :: vrest)).map mpOfRun
      = mpOfRun (v0 :: (runChunk (monthKeyOf v0.date) vrest).1)
        :: (monthRuns (runChunk (monthKeyOf v0.date) vrest).2).map mpOfRun := by
    rw [monthRuns_cons v0 vrest, List.map_cons]
  have hloop : monthlyLoop (monthKeyOf v0.date) v0 v0 vrest
      = mpOfRun (v0 :: (runChunk (monthKeyOf v0.date) vrest).1)
        :: (monthRuns (runChunk (monthKeyOf v0.date) vrest).2).map mpOfRun := by
    rw [monthlyLoop_runs vrest v0, hRL]
  have hcalc := calculateMonthlyPerformance_eq v0 vrest h2 _ _ hloop
  refine ⟨_, hcalc, ?_, monthRuns_join (v0 :: vrest), ?_, ?_, ?_, rfl, rfl, ?_, ?_⟩
  · exact hRL.symm
  · intro run hrun
    obtain ⟨w, ws, hrw, _, hkeys⟩ := monthRuns_runs_spec (v0 :: vrest) run hrun
    exact ⟨w, ws, hrw, hkeys⟩
  · intro run _ w hw hval
    rw [hw]
    have hmp : mpOfRun [w]
        = ⟨monthKeyOf w.date, w.value / w.value - 1, w.value, w.value⟩ := rfl
    rw [hmp]
    show w.value / w.value - 1 = 0
    rw [div_self hval]
    ring
  · show ((mpOfRun (v0 :: (runChunk (monthKeyOf v0.date) vrest).1)
        :: (monthRuns (runChunk (monthKeyOf v0.date) vrest).2).map mpOfRun).map
          MonthlyPerformance.month).Pairwise (· ≠ ·)
    rw [← hRL, List.map_map]
    exact monthRuns_months_pairwise (v0 :: vrest) hsort
  · obtain ⟨l1, l2, hsplit, hnb, hfirst⟩ :=
      @foldl_pick_first MonthlyPerformance (fun a b => b.ret < a.ret)
        (fun a b => inferInstanceAs (Decidable (b.ret < a.ret)))
        (fun a b c h1 h2 => lt_trans h2 h1)
        (fun a => lt_irrefl a.ret)
        (fun a b c h1 h2 => lt_of_le_of_lt (not_lt.mp h1) h2)
        ((monthRuns (runChunk (monthKeyOf v0.date) vrest).2).map mpOfRun)
        (mpOfRun (v0 :: (runChunk (monthKeyOf v0.date) vrest).1))
    exact ⟨l1, l2, hsplit, fun m hm => not_lt.mp (hnb m hm), hfirst⟩
  · obtain ⟨l1, l2, hsplit, hnb, hfirst⟩ :=
      @foldl_pick_first MonthlyPerformance (fun a b => a.ret < b.ret)
        (fun a b => inferInstanceAs (Decidable (a.ret < b.ret)))
        (fun a b c h1 h2 => lt_trans h1 h2)
        (fun a => lt_irrefl a.ret)
        (fun a b c h1 h2 => lt_of_lt_of_le h2 (not_lt.mp h1))
        ((monthRuns (runChunk (monthKeyOf v0.date) vrest).2).map mpOfRun)
        (mpOfRun (v0 :: (runChunk (monthKeyOf v0.date) vrest).1))
    exact ⟨l1, l2, hsplit, fun m hm => not_lt.mp (hnb m hm), hfirst⟩

/-- C8 counterexample: a month containing a single point of value `0`
has return `0/0 − 1 = −1` (with the exact-arithmetic convention
`0/0 = 0`; in JavaScript the result is `NaN`), not the `0` the claim
asserts for every single-point month. -/
theorem calculateMonthlyPerformance_counterexample :
    (calculateMonthlyPerformance [⟨⟨2020, 0, 15⟩, 0⟩, ⟨⟨2020, 1, 15⟩, 5⟩]).map
        (fun s => s.monthlyData.map MonthlyPerformance.ret) = some [-1, 0] ∧
    ((-1 : ℚ) ≠ 0) := by
  refine ⟨?_, by norm_num⟩
  norm_num [calculateMonthlyPerformance, monthlyLoop, monthKeyOf]

/-- C8 witness: two points in consecutive months of the same year. -/
theorem calculateMonthlyPerformance_spec_witness :
    ∃ s, calculateMonthlyPerformance [⟨⟨2020, 0, 1⟩, 100⟩, ⟨⟨2020, 1, 1⟩, 110⟩]
        = some s ∧
      s.monthlyData
        = (monthRuns [⟨⟨2020, 0, 1⟩, 100⟩, ⟨⟨2020, 1, 1⟩, 110⟩]).map mpOfRun := by
  obtain ⟨s, h1, h2, _⟩ := calculateMonthlyPerformance_spec
    [⟨⟨2020, 0, 1⟩, 100⟩, ⟨⟨2020, 1, 1⟩, 110⟩] ⟨⟨2020, 0, 1⟩, 100⟩
    [⟨⟨2020, 1, 1⟩, 110⟩] rfl (by norm_num)
    (List.chain'_cons.mpr ⟨Or.inr ⟨rfl, by norm_num [monthKeyOf]⟩,
      List.chain'_singleton _⟩)
  exact ⟨s, h1, h2⟩
